import Mathlib

/-!
# Runtime metrics collectors: histogram, event-loop lag, GC pauses

A shallow embedding of the native metrics collectors
(`Histogram.cpp`, `GarbageCollection.cpp`, `EventLoop.cpp`, `Heap.cpp`, `Object.cpp`)
and of their entry points (`main.cpp`), and the properties proved about them.

Conventions.
* `uint64_t` values are natural numbers; every arithmetic step that can leave the
  64-bit range is reduced modulo `2 ^ 64` (`wrap64`).
* `std::map` is a list of key/value pairs kept in ascending key order
  (`Map.find`, `Map.insert`, `Map.index`).
* The JavaScript object behind `Object` is an insertion-ordered list of
  properties; `Object.put` (the `Nan::Set` of every `Object::set`) replaces the
  value of an existing key.
* The quantile digest (`tdigest::TDigest`) is a third-party library: its
  read-out is a parameter `est` of every definition that queries it.
-/

namespace opentelemetry

/-! ## Machine arithmetic -/

/-- Reduction of a natural number to the range of `uint64_t`. -/
def wrap64 (n : Nat) : Nat := n % 2 ^ 64

/-- Unsigned 64-bit subtraction `a - b`, wrapping around below zero. -/
def sub64 (a b : Nat) : Nat := (a % 2 ^ 64 + (2 ^ 64 - b % 2 ^ 64)) % 2 ^ 64

/-- Unsigned 64-bit division as the machine performs it: a zero divisor is a
fault and yields no result. -/
def udiv64 (a b : Nat) : Option Nat := if b = 0 then none else some (a / b)

/-! ## The quantile digest -/

/-- Modelled from the spec: `tdigest::TDigest` (header `tdigest/TDigest.h`) is not
among the sources. The spec describes it as a compressed rank summary built with a
fixed compression factor into which values are inserted; it is modelled by that
factor and the values inserted so far, oldest first. -/
structure TDigest where
  compression : Nat
  values : List Nat
deriving DecidableEq

/-- The digest after `digest_->add(value)`. -/
def TDigest.add (d : TDigest) (value : Nat) : TDigest :=
  { d with values := d.values ++ [value] }

/-- Type of the digest read-out used by `Histogram::percentile`: the composition
`static_cast<uint64_t>(std::round(digest_->quantile(value)))`, a function of the
digest and of the requested rank. -/
abbrev Estimator := TDigest → Rat → Nat

/-! ## Histogram (`Histogram.hpp`, `Histogram.cpp`) -/

/-- The private fields of `class Histogram`. -/
structure Histogram where
  min_ : Nat
  max_ : Nat
  sum_ : Nat
  count_ : Nat
  digest_ : TDigest
deriving DecidableEq

namespace Histogram

/-- `Histogram::reset`: zero the running statistics and install a new digest
built with compression factor 1000. -/
def reset (_h : Histogram) : Histogram :=
  { min_ := 0, max_ := 0, sum_ := 0, count_ := 0, digest_ := ⟨1000, []⟩ }

/-- `Histogram::Histogram()`: the constructor only calls `reset()`, which
overwrites every field, so the content before the call plays no role. -/
def new : Histogram :=
  reset { min_ := 0, max_ := 0, sum_ := 0, count_ := 0, digest_ := ⟨0, []⟩ }

/-- `Histogram::min`. -/
def min (h : Histogram) : Nat := h.min_

/-- `Histogram::max`. -/
def max (h : Histogram) : Nat := h.max_

/-- `Histogram::sum`. -/
def sum (h : Histogram) : Nat := h.sum_

/-- `Histogram::count`. -/
def count (h : Histogram) : Nat := h.count_

/-- `Histogram::avg` as executed, `count_ == 0 ? 0 : sum_ / count_`, with the
division being the fallible machine division: `none` is a division fault. -/
def avgExec (h : Histogram) : Option Nat :=
  if h.count_ = 0 then some 0 else udiv64 h.sum_ h.count_

/-- The value returned by `Histogram::avg`. -/
def avg (h : Histogram) : Nat := (avgExec h).getD 0

/-- `Histogram::percentile`: `0` on an empty histogram, otherwise the rounded
digest read-out at the requested rank. -/
def percentile (est : Estimator) (h : Histogram) (value : Rat) : Nat :=
  if h.count_ = 0 then 0 else est h.digest_ value

/-- `Histogram::add`. -/
def add (h : Histogram) (value : Nat) : Histogram :=
  { min_ := if h.count_ = 0 then value else Nat.min h.min_ value
    max_ := if h.count_ = 0 then value else Nat.max h.max_ value
    count_ := wrap64 (h.count_ + 1)
    sum_ := wrap64 (h.sum_ + value)
    digest_ := h.digest_.add value }

/-- The histogram reached from `h` by `add(v1); ...; add(vn)`. -/
def addAll (h : Histogram) (vs : List Nat) : Histogram := vs.foldl add h

end Histogram

/-! ## `std::map` -/

namespace Map

/-- `std::map::find`: the value stored under key `k`, if any. -/
def find {α : Type} : List (Nat × α) → Nat → Option α
  | [], _ => none
  | (j, v) :: rest, k => if j = k then some v else find rest k

/-- Assignment to the element under key `k` of a `std::map`: an existing entry is
overwritten, a new one is placed at its position in ascending key order. -/
def insert {α : Type} : List (Nat × α) → Nat → α → List (Nat × α)
  | [], k, v => [(k, v)]
  | (j, w) :: rest, k, v =>
    if k < j then (k, v) :: (j, w) :: rest
    else if k = j then (k, v) :: rest
    else (j, w) :: insert rest k v

/-- The element access `m[k]` of `std::map` read as a value: the stored value, or
the value-initialised one (`dflt`) that the access inserts when the key is absent. -/
def read {α : Type} (m : List (Nat × α)) (k : Nat) (dflt : α) : α :=
  (find m k).getD dflt

/-- The effect of the element access `m[k]` on the map itself: an absent key is
inserted with the value-initialised value `dflt`. -/
def index {α : Type} (m : List (Nat × α)) (k : Nat) (dflt : α) : List (Nat × α) :=
  match find m k with
  | some _ => m
  | none => insert m k dflt

end Map

/-! ## The output sink (`Object.hpp`, `Object.cpp`) -/

/-- A JavaScript value as produced by the sink: a string, a number (the `uint64_t`
handed to `set`, before its conversion to a double), an object given by its
properties in insertion order, or an array. -/
inductive Value where
  | str (s : String)
  | num (n : Nat)
  | obj (props : List (String × Value))
  | arr (items : List Value)

/-- The class `Object`: a handle `target_` on a JavaScript object, given by the
properties of that object in insertion order. -/
abbrev Object := List (String × Value)

namespace Object

/-- `Object::Object()`: a handle on a new, empty JavaScript object. -/
def empty : Object := []

/-- `Nan::Set(target_, key, value)`: an existing property keeps its place and takes
the new value, a new property is appended. -/
def put : Object → String → Value → Object
  | [], key, value => [(key, value)]
  | (k, v) :: rest, key, value =>
    if k = key then (k, value) :: rest else (k, v) :: put rest key value

/-- Property read, used to inspect what a collector wrote. -/
def get : Object → String → Option Value
  | [], _ => none
  | (k, v) :: rest, key => if k = key then some v else get rest key

/-- The property names of the object, in insertion order. -/
def keys (o : Object) : List String := o.map Prod.fst

/-- `Object::set(std::string key, std::string value)`. -/
def setString (o : Object) (key : String) (value : String) : Object :=
  put o key (Value.str value)

/-- `Object::set(std::string key, uint64_t value)`. -/
def setUint (o : Object) (key : String) (value : Nat) : Object :=
  put o key (Value.num value)

/-- `Object::set(std::string key, Object value)`. -/
def setObject (o : Object) (key : String) (value : Object) : Object :=
  put o key (Value.obj value)

/-- `Object::set(std::string key, std::vector<Object> value)`. -/
def setVector (o : Object) (key : String) (value : List Object) : Object :=
  put o key (Value.arr (value.map Value.obj))

/-- The object built inside `Object::set(std::string key, Histogram value)`:
the seven statistics of the histogram, written in the order of the source. -/
def ofHistogram (est : Estimator) (value : Histogram) : Object :=
  setUint (setUint (setUint (setUint (setUint (setUint (setUint empty
    "min" value.min) "max" value.max) "sum" value.sum) "avg" value.avg)
    "count" value.count) "median" (value.percentile est (1 / 2)))
    "p95" (value.percentile est (95 / 100))

/-- `Object::set(std::string key, Histogram value)`. -/
def setHistogram (est : Estimator) (o : Object) (key : String) (value : Histogram) : Object :=
  put o key (Value.obj (ofHistogram est value))

end Object

/-! ## GC pause collector (`GarbageCollection.hpp`, `GarbageCollection.cpp`) -/

/-- Modelled from the spec: the enumerator `v8::GCType::kGCTypeAll` is declared in
`v8.h`, which is not among the sources. It is the reserved wildcard code, the one
the name table of the constructor registers as `all` next to the four single
collection types 1, 2, 4 and 8: code 15. -/
def kGCTypeAll : Nat := 15

/-- The private fields of `class GarbageCollection`. A `v8::GCType` is given by its
numeric code. -/
structure GarbageCollection where
  pause_ : List (Nat × Histogram)
  types_ : List (Nat × String)
  start_time_ : Nat

namespace GarbageCollection

/-- The name table after the six assignments of the constructor. -/
def initialTypes : List (Nat × String) :=
  Map.insert (Map.insert (Map.insert (Map.insert (Map.insert (Map.insert []
    1 "scavenge") 2 "markSweepCompact") 3 "all") 4 "incrementalMarking")
    8 "processWeakCallbacks") 15 "all"

/-- `GarbageCollection::GarbageCollection()`. The collector is an object of static
storage duration (`main.cpp`), so `start_time_`, which the constructor does not
assign, starts at zero. -/
def new : GarbageCollection :=
  { types_ := initialTypes
    pause_ := Map.insert [] kGCTypeAll Histogram.new
    start_time_ := 0 }

/-- `GarbageCollection::before`; `now` is the value of `uv_hrtime()`. -/
def before (self : GarbageCollection) (_type : Nat) (now : Nat) : GarbageCollection :=
  { self with start_time_ := now }

/-- The statement `pause_[type].add(usage)`: element access, which creates a
value-initialised histogram for an absent key, then `add` on that element. -/
def addTo (pause : List (Nat × Histogram)) (type : Nat) (usage : Nat) :
    List (Nat × Histogram) :=
  Map.insert (Map.index pause type Histogram.new) type
    ((Map.read pause type Histogram.new).add usage)

/-- `GarbageCollection::after`; `now` is the value of `uv_hrtime()`. -/
def after (self : GarbageCollection) (type : Nat) (now : Nat) : GarbageCollection :=
  let usage := sub64 now self.start_time_
  let pause1 :=
    match Map.find self.pause_ type with
    | none => Map.insert self.pause_ type Histogram.new
    | some _ => self.pause_
  let pause2 := addTo pause1 type usage
  let pause3 := addTo pause2 kGCTypeAll usage
  { self with pause_ := pause3 }

/-- The loop of `GarbageCollection::inject` over the entries of `pause_` in
ascending key order. Each entry is written into `value` under `types_[it.first]`,
the key being converted to the `unsigned char` key type of the name table (an
absent name is inserted as the empty string by the element access), and is then
reset in place. Returns the entries after the loop, the name table and `value`. -/
def injectLoop (est : Estimator) :
    List (Nat × Histogram) → List (Nat × String) → Object →
      List (Nat × Histogram) × List (Nat × String) × Object
  | [], types, value => ([], types, value)
  | (code, hist) :: rest, types, value =>
    let name := Map.read types (code % 256) ""
    let types1 := Map.index types (code % 256) ""
    let value1 := Object.setHistogram est value name hist
    let r := injectLoop est rest types1 value1
    ((code, hist.reset) :: r.1, r.2.1, r.2.2)

/-- `GarbageCollection::inject`: the collector and the carrier after the call. -/
def inject (est : Estimator) (self : GarbageCollection) (carrier : Object) :
    GarbageCollection × Object :=
  let r := injectLoop est self.pause_ self.types_ Object.empty
  ({ self with pause_ := r.1, types_ := r.2.1 }, Object.setObject carrier "gc" r.2.2)

end GarbageCollection

/-- An operation on the GC collector: the two GC callbacks of `main.cpp`, each with
the clock value it reads, and a snapshot into a carrier. -/
inductive GCEvent where
  | before (type : Nat) (now : Nat)
  | after (type : Nat) (now : Nat)
  | inject (carrier : Object)

namespace GarbageCollection

/-- The collector after one operation. -/
def step (est : Estimator) (self : GarbageCollection) : GCEvent → GarbageCollection
  | GCEvent.before type now => self.before type now
  | GCEvent.after type now => self.after type now
  | GCEvent.inject carrier => (self.inject est carrier).1

/-- The collector reached from construction by a sequence of operations. -/
def run (est : Estimator) (events : List GCEvent) : GarbageCollection :=
  events.foldl (step est) new

end GarbageCollection

/-! ## Event-loop lag collector (`EventLoop.hpp`, `EventLoop.cpp`) -/

/-- The private fields of `class EventLoop`. The two libuv handles are given by
whether they are started. -/
structure EventLoop where
  check_handle_ : Bool
  prepare_handle_ : Bool
  check_time_ : Nat
  prepare_time_ : Nat
  timeout_ : Nat
  histogram_ : Histogram

namespace EventLoop

/-- `EventLoop::EventLoop()`; `now` is the value of `uv_hrtime()`. The handles are
initialised but not started. The collector is an object of static storage duration
(`main.cpp`), so `prepare_time_` and `timeout_`, which the constructor does not
assign, start at zero. -/
def new (now : Nat) : EventLoop :=
  { check_handle_ := false
    prepare_handle_ := false
    check_time_ := now
    prepare_time_ := 0
    timeout_ := 0
    histogram_ := Histogram.new }

/-- `EventLoop::check_cb`; `now` is the value of `uv_hrtime()`. -/
def check_cb (self : EventLoop) (now : Nat) : EventLoop :=
  let check_time := now
  let poll_time := sub64 check_time self.prepare_time_
  let latency := sub64 self.prepare_time_ self.check_time_
  let timeout := wrap64 (wrap64 (self.timeout_ * 1000) * 1000)
  let latency1 := if poll_time > timeout then wrap64 (latency + sub64 poll_time timeout) else latency
  { self with histogram_ := self.histogram_.add latency1, check_time_ := check_time }

/-- `EventLoop::prepare_cb`; `now` is the value of `uv_hrtime()` and
`backend_timeout` the `int` returned by `uv_backend_timeout`, converted to the
`uint64_t` field on assignment. -/
def prepare_cb (self : EventLoop) (now : Nat) (backend_timeout : Int) : EventLoop :=
  { self with prepare_time_ := now, timeout_ := (backend_timeout % 2 ^ 64).toNat }

/-- `EventLoop::enable`. -/
def enable (self : EventLoop) : EventLoop :=
  { self with check_handle_ := true, prepare_handle_ := true }

/-- `EventLoop::disable`. -/
def disable (self : EventLoop) : EventLoop :=
  { self with check_handle_ := false, prepare_handle_ := false,
              histogram_ := self.histogram_.reset }

/-- `EventLoop::inject`: the collector and the carrier after the call. -/
def inject (est : Estimator) (self : EventLoop) (carrier : Object) : EventLoop × Object :=
  ({ self with histogram_ := self.histogram_.reset },
   Object.setHistogram est carrier "eventLoop" self.histogram_)

end EventLoop

namespace EventLoop

/-- The latency computed by `EventLoop::check_cb` (lines 25 to 32) and handed to the
histogram; `now` is the value of `uv_hrtime()`. -/
def latency (self : EventLoop) (now : Nat) : Nat :=
  let check_time := now
  let poll_time := sub64 check_time self.prepare_time_
  let latency := sub64 self.prepare_time_ self.check_time_
  let timeout := wrap64 (wrap64 (self.timeout_ * 1000) * 1000)
  if poll_time > timeout then wrap64 (latency + sub64 poll_time timeout) else latency

end EventLoop

/-- An operation on the event-loop collector: its public functions and the two loop
phases, each phase with the clock value its callback reads (and, for the prepare
phase, the value of `uv_backend_timeout`). -/
inductive LoopEvent where
  | enable
  | disable
  | prepare (now : Nat) (backend_timeout : Int)
  | check (now : Nat)
  | inject (carrier : Object)

namespace EventLoop

/-- The collector after one operation. The loop runs the callback of a phase only
while the handle of that phase is started (`uv_prepare_start`, `uv_check_start`). -/
def step (est : Estimator) (self : EventLoop) : LoopEvent → EventLoop
  | LoopEvent.enable => self.enable
  | LoopEvent.disable => self.disable
  | LoopEvent.prepare now backend_timeout =>
    if self.prepare_handle_ then self.prepare_cb now backend_timeout else self
  | LoopEvent.check now => if self.check_handle_ then self.check_cb now else self
  | LoopEvent.inject carrier => (self.inject est carrier).1

/-- The collector constructed at time `start` after a sequence of operations. -/
def run (est : Estimator) (start : Nat) (events : List LoopEvent) : EventLoop :=
  events.foldl (step est) (new start)

end EventLoop

/-! ## Heap snapshot collector (`Heap.hpp`, `Heap.cpp`) -/

/-- Reduction of a natural number to the range of `unsigned int`. -/
def wrap32 (n : Nat) : Nat := n % 2 ^ 32

/-- Modelled from the spec: `v8::HeapSpaceStatistics` is declared in `v8.h`, which is
not among the sources. It is given by the five values that `Heap::inject` reads
from it. -/
structure HeapSpaceStatistics where
  space_name : String
  space_size : Nat
  space_used_size : Nat
  space_available_size : Nat
  physical_space_size : Nat

/-- Modelled from the spec: `v8::Isolate` is declared in `v8.h`, which is not among
the sources. It is given by what `Heap::inject` asks of it: the number of heap
spaces, and for each index the outcome of `GetHeapSpaceStatistics`, `none` when the
call returns `false`. -/
structure Isolate where
  NumberOfHeapSpaces : Nat
  GetHeapSpaceStatistics : Nat → Option HeapSpaceStatistics

namespace Heap

/-- The object `space` filled in the body of the loop of `Heap::inject`. -/
def space (stats : HeapSpaceStatistics) : Object :=
  Object.setUint (Object.setUint (Object.setUint (Object.setUint
    (Object.setString Object.empty "spaceName" stats.space_name)
    "size" stats.space_size) "usedSize" stats.space_used_size)
    "availableSize" stats.space_available_size)
    "physicalSize" stats.physical_space_size

/-- The loop of `Heap::inject`, `for (unsigned int i = 0; i < NumberOfHeapSpaces();
i++)`, from index `i` with the vector `spaces` built so far. The index is an
`unsigned int` and wraps around; `fuel` bounds the number of tests of the loop
condition, and `none` means that the bound was reached before the loop ended. -/
def injectLoop (isolate : Isolate) : Nat → Nat → List Object → Option (List Object)
  | 0, _, _ => none
  | fuel + 1, i, spaces =>
    if i < isolate.NumberOfHeapSpaces then
      match isolate.GetHeapSpaceStatistics i with
      | some stats => injectLoop isolate fuel (wrap32 (i + 1)) (spaces ++ [space stats])
      | none => injectLoop isolate fuel (wrap32 (i + 1)) spaces
    else some spaces

/-- `Heap::inject`: the carrier after the call, `none` when the loop did not end
within `fuel` tests of its condition. -/
def inject (isolate : Isolate) (fuel : Nat) (carrier : Object) : Option Object :=
  match injectLoop isolate fuel 0 [] with
  | none => none
  | some spaces =>
    some (Object.setObject carrier "heap"
      (Object.setVector Object.empty "spaces" spaces))

end Heap

/-! ## Entry points (`main.cpp`) -/

/-- The objects of the anonymous namespace of `main.cpp`, `eventLoop` and `gc` (the
heap collector has no state), together with what the runtime knows of the two GC
callbacks: whether `before_gc` is registered as prologue callback and `after_gc` as
epilogue callback. -/
structure Main where
  eventLoop : EventLoop
  gc : GarbageCollection
  before_gc_added : Bool
  after_gc_added : Bool

namespace Main

/-- The state after static initialisation; `now` is the value of `uv_hrtime()` read
by the constructor of `eventLoop`. -/
def new (now : Nat) : Main :=
  { eventLoop := EventLoop.new now
    gc := GarbageCollection.new
    before_gc_added := false
    after_gc_added := false }

/-- The GC prologue: the runtime calls `before_gc` while it is registered. -/
def before_gc (self : Main) (type : Nat) (now : Nat) : Main :=
  if self.before_gc_added then { self with gc := self.gc.before type now } else self

/-- The GC epilogue: the runtime calls `after_gc` while it is registered. -/
def after_gc (self : Main) (type : Nat) (now : Nat) : Main :=
  if self.after_gc_added then { self with gc := self.gc.after type now } else self

/-- The method `start`. -/
def start (self : Main) : Main :=
  { self with eventLoop := self.eventLoop.enable
              before_gc_added := true
              after_gc_added := true }

/-- The method `stop`. -/
def stop (self : Main) : Main :=
  { self with eventLoop := self.eventLoop.disable
              before_gc_added := false
              after_gc_added := false }

/-- The method `stats`: the state after the call and the object returned, `none`
when the loop of the heap collector did not end within `fuel` tests. -/
def stats (est : Estimator) (isolate : Isolate) (fuel : Nat) (self : Main) :
    Option (Main × Object) :=
  let obj := Object.empty
  let r1 := self.eventLoop.inject est obj
  let r2 := self.gc.inject est r1.2
  match Heap.inject isolate fuel r2.2 with
  | none => none
  | some obj3 => some ({ self with eventLoop := r1.1, gc := r2.1 }, obj3)

end Main

/-! ## Vocabulary of the statements -/

namespace GarbageCollection

/-- The key under which `inject` writes the histogram of a type code, as a function
of the code alone: the entry of the name table of the constructor for the code
converted to `unsigned char`, and the empty string when the table has none. -/
def nameOf (code : Nat) : String := Map.read initialTypes (code % 256) ""

/-- A name table that answers every lookup as the table of the constructor does:
it differs from it at most by entries holding the empty string. -/
def TypesOk (types : List (Nat × String)) : Prop :=
  ∀ k, Map.read types k "" = Map.read initialTypes k ""

end GarbageCollection

namespace Value

/-- The property names of a value that is an object; no names otherwise. -/
def keys : Value → List String
  | Value.obj props => props.map Prod.fst
  | _ => []

end Value

namespace Object

/-- The record of seven statistics in which every statistic is zero. -/
def zeroStats : Object :=
  [("min", Value.num 0), ("max", Value.num 0), ("sum", Value.num 0),
   ("avg", Value.num 0), ("count", Value.num 0), ("median", Value.num 0),
   ("p95", Value.num 0)]

end Object

namespace Value

/-- The property `key` of a value that is an object. -/
def prop : Value → String → Option Value
  | Value.obj props, key => Object.get props key
  | _, _ => none

/-- The number held by a value that is a number. -/
def asNum : Value → Option Nat
  | Value.num n => some n
  | _ => none

end Value

namespace Object

/-- The number found in object `o` under `o[k1][k2][k3]`. -/
def number (o : Object) (k1 k2 k3 : String) : Option Nat :=
  (((Object.get o k1).bind (fun v => v.prop k2)).bind (fun v => v.prop k3)).bind
    Value.asNum

end Object

namespace EventLoop

/-- The threshold `timeout` of `EventLoop::check_cb` (line 28): the stored timeout
scaled twice by 1000 in 64-bit arithmetic. -/
def scaledTimeout (self : EventLoop) : Nat :=
  wrap64 (wrap64 (self.timeout_ * 1000) * 1000)

end EventLoop

namespace Map

/-- The order invariant of `std::map`: keys strictly ascending. -/
def Ordered {α : Type} (m : List (Nat × α)) : Prop :=
  List.Pairwise (fun a b => a.1 < b.1) m

end Map

namespace GarbageCollection

/-- The aggregate histogram `pause_[v8::GCType::kGCTypeAll]`. -/
def aggregate (self : GarbageCollection) : Histogram :=
  Map.read self.pause_ kGCTypeAll Histogram.new

/-- What an entry of `pause_` contributes to the total of a statistic `f` over the
histograms of every code other than the aggregate code: the statistic of its
histogram, and nothing for the entry of the aggregate. -/
def share (f : Histogram → Nat) (e : Nat × Histogram) : Nat :=
  if e.1 = kGCTypeAll then 0 else f e.2

/-- The total of a statistic `f` over the histograms of every code other than the
aggregate code. -/
def totalOthers (f : Histogram → Nat) (pause : List (Nat × Histogram)) : Nat :=
  (pause.map (share f)).sum

/-- The aggregate histogram agrees with the total of the per-type histograms in a
well-formed map: its count and its sum are the totals of the counts and of the sums
of the other histograms, both modulo `2 ^ 64`. -/
def Balanced (self : GarbageCollection) : Prop :=
  Map.Ordered self.pause_ ∧
  self.aggregate.count = totalOthers Histogram.count self.pause_ % 2 ^ 64 ∧
  self.aggregate.sum = totalOthers Histogram.sum self.pause_ % 2 ^ 64

end GarbageCollection

/-! # Properties -/

/-! ## Histogram -/

namespace Histogram

theorem addAll_append (h : Histogram) (xs : List Nat) (x : Nat) :
    addAll h (xs ++ [x]) = add (addAll h xs) x := by
  simp [addAll, List.foldl_append]

theorem count_addAll (vs : List Nat) :
    (addAll new vs).count_ = vs.length % 2 ^ 64 := by
  induction vs using List.reverseRecOn with
  | nil => rfl
  | append_singleton xs x ih =>
    rw [addAll_append]
    simp only [add, wrap64, ih, List.length_append, List.length_singleton]
    omega

theorem sum_addAll (vs : List Nat) :
    (addAll new vs).sum_ = vs.sum % 2 ^ 64 := by
  induction vs using List.reverseRecOn with
  | nil => rfl
  | append_singleton xs x ih =>
    rw [addAll_append]
    simp only [add, wrap64, ih, List.sum_append, List.sum_singleton]
    omega

theorem min_max_addAll (vs : List Nat) (hne : vs ≠ []) (hlen : vs.length ≤ 2 ^ 64) :
    (addAll new vs).min_ ∈ vs ∧ (addAll new vs).max_ ∈ vs ∧
      ∀ v ∈ vs, (addAll new vs).min_ ≤ v ∧ v ≤ (addAll new vs).max_ := by
  induction vs using List.reverseRecOn with
  | nil => exact absurd rfl hne
  | append_singleton xs x ih =>
    rw [addAll_append]
    have hc := count_addAll xs
    simp only [List.length_append, List.length_singleton] at hlen
    rw [Nat.mod_eq_of_lt (by omega)] at hc
    by_cases hx : xs = []
    · subst hx
      simp [add, addAll, new, reset]
    · have hpos : (addAll new xs).count_ ≠ 0 := by
        rw [hc]
        exact fun h0 => hx (List.length_eq_zero.mp h0)
      obtain ⟨hmin, hmax, hall⟩ := ih hx (by omega)
      simp only [add, if_neg hpos]
      have e1 : ∀ a b : Nat, Nat.min a b = Min.min a b := fun _ _ => rfl
      have e2 : ∀ a b : Nat, Nat.max a b = Max.max a b := fun _ _ => rfl
      rw [e1, e2]
      refine ⟨?_, ?_, ?_⟩
      · rcases min_choice (addAll new xs).min_ x with h | h
        · rw [h]
          exact List.mem_append_left _ hmin
        · rw [h]
          simp
      · rcases max_choice (addAll new xs).max_ x with h | h
        · rw [h]
          exact List.mem_append_left _ hmax
        · rw [h]
          simp
      · intro v hv
        rcases List.mem_append.mp hv with hv | hv
        · have := hall v hv
          exact ⟨Nat.le_trans (Nat.min_le_left _ _) this.1,
                 Nat.le_trans this.2 (Nat.le_max_left _ _)⟩
        · have hvx : v = x := by simpa using hv
          subst hvx
          exact ⟨Nat.min_le_right _ _, Nat.le_max_right _ _⟩

theorem avgExec_eq (h : Histogram) :
    h.avgExec = some (if h.count_ = 0 then 0 else h.sum_ / h.count_) := by
  unfold avgExec udiv64
  by_cases hc : h.count_ = 0 <;> simp [hc]

theorem avg_eq (h : Histogram) :
    h.avg = if h.count_ = 0 then 0 else h.sum_ / h.count_ := by
  simp [avg, avgExec_eq]

theorem reset_eq_new (h : Histogram) : h.reset = new := rfl

end Histogram

/-! ## Maps and the sink -/

namespace Map

theorem find_insert {α : Type} (m : List (Nat × α)) (k : Nat) (v : α) (j : Nat) :
    find (insert m k v) j = if j = k then some v else find m j := by
  induction m with
  | nil =>
    by_cases h : j = k
    · simp [insert, find, h]
    · have hkj : ¬ k = j := fun e => h e.symm
      simp [insert, find, h, hkj]
  | cons e rest ih =>
    obtain ⟨i, w⟩ := e
    by_cases h : j = k
    · subst h
      by_cases h1 : j < i
      · simp [insert, find, h1]
      · by_cases h2 : j = i
        · simp [insert, find, h2]
        · have h3 : ¬ i = j := fun e => h2 e.symm
          simp [insert, find, h1, h2, h3, ih]
    · have hkj : ¬ k = j := fun e => h e.symm
      by_cases h1 : k < i
      · simp [insert, find, h1, h, hkj]
      · by_cases h2 : k = i
        · subst h2
          simp [insert, find, h, hkj]
        · by_cases h3 : i = j
          · subst h3
            simp [insert, find, h1, h2, h]
          · simp [insert, find, h1, h2, h3, ih, h]

theorem find_index {α : Type} (m : List (Nat × α)) (k : Nat) (d : α) (j : Nat) :
    find (index m k d) j = if j = k then some (read m k d) else find m j := by
  unfold index read
  cases hf : find m k with
  | none =>
    simp only [find_insert, Option.getD_none]
  | some v =>
    by_cases h : j = k
    · subst h
      simp [hf]
    · simp [h]

theorem read_index {α : Type} (m : List (Nat × α)) (k : Nat) (d : α) (j : Nat) :
    read (index m k d) j d = read m j d := by
  unfold read
  rw [find_index]
  by_cases h : j = k
  · subst h
    simp [read]
  · simp [h]

theorem find_isSome_iff {α : Type} (m : List (Nat × α)) (j : Nat) :
    (find m j).isSome = true ↔ ∃ e ∈ m, e.1 = j := by
  induction m with
  | nil => simp [find]
  | cons e rest ih =>
    obtain ⟨i, w⟩ := e
    by_cases h : i = j
    · simp [find, h]
    · simp [find, h, ih]

end Map

namespace Object

theorem get_put (o : Object) (key : String) (value : Value) :
    get (put o key value) key = some value := by
  induction o with
  | nil => simp [put, get]
  | cons e rest ih =>
    obtain ⟨k, v⟩ := e
    by_cases h : k = key
    · simp [put, get, h]
    · simp [put, get, h, ih]

theorem mem_keys_put (o : Object) (key : String) (value : Value) (j : String) :
    j ∈ keys (put o key value) ↔ j ∈ keys o ∨ j = key := by
  induction o with
  | nil => simp [put, keys]
  | cons e rest ih =>
    obtain ⟨k, v⟩ := e
    by_cases h : k = key
    · subst h
      simp only [put, if_true, keys, List.map_cons, List.mem_cons]
      tauto
    · simp only [keys] at ih
      simp only [put, if_neg h, keys, List.map_cons, List.mem_cons, ih]
      tauto

theorem values_put (o : Object) (key : String) (value : Value)
    (ho : ∀ e ∈ o, e.2 = value) : ∀ e ∈ put o key value, e.2 = value := by
  induction o with
  | nil =>
    intro e he
    simp only [put, List.mem_singleton] at he
    rw [he]
  | cons e0 rest ih =>
    obtain ⟨k, v⟩ := e0
    intro e he
    by_cases h : k = key
    · simp only [put, if_pos h, List.mem_cons] at he
      rcases he with he | he
      · rw [he]
      · exact ho e (List.mem_cons_of_mem _ he)
    · simp only [put, if_neg h, List.mem_cons] at he
      rcases he with he | he
      · rw [he]
        exact ho (k, v) (List.mem_cons_self _ _)
      · exact ih (fun x hx => ho x (List.mem_cons_of_mem _ hx)) e he

end Object

/-! ## GC pause collector -/

namespace GarbageCollection

theorem find_addTo (pause : List (Nat × Histogram)) (type usage j : Nat) :
    Map.find (addTo pause type usage) j =
      if j = type then some ((Map.read pause type Histogram.new).add usage)
      else Map.find pause j := by
  unfold addTo
  rw [Map.find_insert, Map.find_index]
  by_cases h : j = type <;> simp [h]

theorem after_pause_eq (self : GarbageCollection) (type now : Nat) :
    (self.after type now).pause_ =
      addTo (addTo (Map.index self.pause_ type Histogram.new) type
        (sub64 now self.start_time_)) kGCTypeAll (sub64 now self.start_time_) := by
  unfold after Map.index
  cases Map.find self.pause_ type <;> rfl

theorem read_index_self (pause : List (Nat × Histogram)) (type : Nat) :
    Map.read (Map.index pause type Histogram.new) type Histogram.new =
      Map.read pause type Histogram.new :=
  Map.read_index pause type Histogram.new type

/-- Every histogram of the collector after `after(type)`: the aggregate and the one
of `type` take the pause (the aggregate twice when `type` is the aggregate code),
every other one is untouched. -/
theorem find_after (self : GarbageCollection) (type now j : Nat) :
    Map.find (self.after type now).pause_ j =
      if j = kGCTypeAll then
        some ((if type = kGCTypeAll then
            (Map.read self.pause_ kGCTypeAll Histogram.new).add (sub64 now self.start_time_)
          else Map.read self.pause_ kGCTypeAll Histogram.new).add (sub64 now self.start_time_))
      else if j = type then
        some ((Map.read self.pause_ type Histogram.new).add (sub64 now self.start_time_))
      else Map.find self.pause_ j := by
  rw [after_pause_eq, find_addTo]
  by_cases hj : j = kGCTypeAll
  · subst hj
    simp only [if_true]
    by_cases ht : type = kGCTypeAll
    · subst ht
      simp only [if_true, Map.read, find_addTo, Option.getD_some]
      rw [← Map.read, read_index_self]
      rfl
    · have ht2 : ¬ kGCTypeAll = type := fun e => ht e.symm
      simp only [if_neg ht, Map.read, find_addTo, if_neg ht2, Map.find_index]
  · simp only [if_neg hj, find_addTo]
    by_cases h : j = type
    · simp only [if_pos h, read_index_self]
    · simp only [if_neg h, Map.find_index]

theorem sub64_add_left (t d : Nat) (h : t + d < 2 ^ 64) : sub64 (t + d) t = d := by
  unfold sub64
  omega

end GarbageCollection

namespace GarbageCollection

theorem typesOk_initial : TypesOk initialTypes := fun _ => rfl

theorem typesOk_index (types : List (Nat × String)) (k : Nat) (h : TypesOk types) :
    TypesOk (Map.index types k "") := by
  intro j
  rw [Map.read_index]
  exact h j

theorem read_eq_nameOf (types : List (Nat × String)) (code : Nat) (h : TypesOk types) :
    Map.read types (code % 256) "" = nameOf code :=
  h (code % 256)

theorem injectLoop_pause (est : Estimator) (pause : List (Nat × Histogram))
    (types : List (Nat × String)) (value : Object) :
    (injectLoop est pause types value).1 = pause.map (fun e => (e.1, e.2.reset)) := by
  induction pause generalizing types value with
  | nil => rfl
  | cons e rest ih =>
    obtain ⟨code, hist⟩ := e
    simp only [injectLoop, List.map_cons, ih]

theorem injectLoop_types (est : Estimator) (pause : List (Nat × Histogram))
    (types : List (Nat × String)) (value : Object) (h : TypesOk types) :
    TypesOk (injectLoop est pause types value).2.1 := by
  induction pause generalizing types value with
  | nil => exact h
  | cons e rest ih =>
    obtain ⟨code, hist⟩ := e
    simp only [injectLoop]
    exact ih _ _ (typesOk_index types _ h)

theorem injectLoop_value (est : Estimator) (pause : List (Nat × Histogram))
    (types : List (Nat × String)) (value : Object) (h : TypesOk types) :
    (injectLoop est pause types value).2.2 =
      pause.foldl (fun o e => Object.setHistogram est o (nameOf e.1) e.2) value := by
  induction pause generalizing types value with
  | nil => rfl
  | cons e rest ih =>
    obtain ⟨code, hist⟩ := e
    simp only [injectLoop, List.foldl_cons]
    rw [ih _ _ (typesOk_index types _ h), read_eq_nameOf types code h]

theorem injectLoop_zero (est : Estimator) (pause : List (Nat × Histogram))
    (types : List (Nat × String)) (value : Object)
    (hp : ∀ e ∈ pause, e.2 = Histogram.new)
    (hv : ∀ e ∈ value, e.2 = Value.obj Object.zeroStats) :
    ∀ e ∈ (injectLoop est pause types value).2.2, e.2 = Value.obj Object.zeroStats := by
  induction pause generalizing types value with
  | nil => exact hv
  | cons e0 rest ih =>
    obtain ⟨code, hist⟩ := e0
    simp only [injectLoop]
    apply ih
    · exact fun e he => hp e (List.mem_cons_of_mem _ he)
    · have hh : hist = Histogram.new := hp (code, hist) (List.mem_cons_self _ _)
      subst hh
      exact Object.values_put value _ _ hv

theorem mem_keys_written (est : Estimator) (pause : List (Nat × Histogram))
    (value : Object) (j : String) :
    j ∈ Object.keys
        (pause.foldl (fun o e => Object.setHistogram est o (nameOf e.1) e.2) value) ↔
      j ∈ Object.keys value ∨ ∃ e ∈ pause, nameOf e.1 = j := by
  induction pause generalizing value with
  | nil => simp
  | cons e rest ih =>
    rw [List.foldl_cons, ih]
    simp only [Object.setHistogram, Object.mem_keys_put, List.mem_cons, exists_eq_or_imp]
    constructor
    · rintro ((h | h) | h)
      · exact Or.inl h
      · exact Or.inr (Or.inl h.symm)
      · exact Or.inr (Or.inr h)
    · rintro (h | h | h)
      · exact Or.inl (Or.inl h)
      · exact Or.inl (Or.inr h.symm)
      · exact Or.inr h

theorem run_append (est : Estimator) (events : List GCEvent) (ev : GCEvent) :
    run est (events ++ [ev]) = step est (run est events) ev := by
  simp [run, List.foldl_append]

theorem run_typesOk (est : Estimator) (events : List GCEvent) :
    TypesOk (run est events).types_ := by
  induction events using List.reverseRecOn with
  | nil => exact typesOk_initial
  | append_singleton evs ev ih =>
    rw [run_append]
    cases ev with
    | before type now => exact ih
    | after type now => exact ih
    | inject carrier => exact injectLoop_types est _ _ _ ih

theorem find_map_reset (pause : List (Nat × Histogram)) (j : Nat) :
    (Map.find (pause.map (fun e => (e.1, e.2.reset))) j).isSome =
      (Map.find pause j).isSome := by
  induction pause with
  | nil => rfl
  | cons e rest ih =>
    obtain ⟨code, hist⟩ := e
    by_cases h : code = j
    · simp [Map.find, h]
    · simp [Map.find, h, ih]

theorem run_has_histogram (est : Estimator) (events : List GCEvent) (code : Nat) :
    (Map.find (run est events).pause_ code).isSome = true ↔
      code = kGCTypeAll ∨ ∃ now, GCEvent.after code now ∈ events := by
  induction events using List.reverseRecOn with
  | nil =>
    by_cases h : code = kGCTypeAll
    · subst h
      simp [run, new, Map.insert, Map.find]
    · have h2 : ¬ kGCTypeAll = code := fun e => h e.symm
      simp [run, new, Map.insert, Map.find, h, h2]
  | append_singleton evs ev ih =>
    rw [run_append]
    cases ev with
    | before type now =>
      have : (step est (run est evs) (GCEvent.before type now)).pause_ =
          (run est evs).pause_ := rfl
      rw [this, ih]
      simp
    | after type now =>
      have : (step est (run est evs) (GCEvent.after type now)).pause_ =
          ((run est evs).after type now).pause_ := rfl
      rw [this, find_after]
      by_cases h1 : code = kGCTypeAll
      · simp [h1]
      · by_cases h2 : code = type
        · subst h2
          simp only [if_neg h1, if_true, Option.isSome_some, true_iff]
          exact Or.inr ⟨now, by simp⟩
        · simp only [if_neg h1, if_neg h2, ih, List.mem_append, List.mem_singleton,
            GCEvent.after.injEq]
          constructor
          · rintro (h | ⟨n, h⟩)
            · exact Or.inl h
            · exact Or.inr ⟨n, Or.inl h⟩
          · rintro (h | ⟨n, h | h⟩)
            · exact Or.inl h
            · exact Or.inr ⟨n, h⟩
            · exact absurd h.1 h2
    | inject carrier =>
      have : (step est (run est evs) (GCEvent.inject carrier)).pause_ =
          (run est evs).pause_.map (fun e => (e.1, e.2.reset)) :=
        injectLoop_pause est _ _ _
      rw [this, find_map_reset, ih]
      simp

theorem inject_gc (est : Estimator) (self : GarbageCollection) (carrier : Object) :
    Object.get (self.inject est carrier).2 "gc" =
      some (Value.obj (injectLoop est self.pause_ self.types_ Object.empty).2.2) :=
  Object.get_put carrier "gc" _

end GarbageCollection

namespace GarbageCollection

theorem nameOf_eq (code : Nat) :
    nameOf code =
      if code % 256 = 1 then "scavenge"
      else if code % 256 = 2 then "markSweepCompact"
      else if code % 256 = 3 then "all"
      else if code % 256 = 4 then "incrementalMarking"
      else if code % 256 = 8 then "processWeakCallbacks"
      else if code % 256 = 15 then "all"
      else "" := by
  have ht : initialTypes = [(1, "scavenge"), (2, "markSweepCompact"), (3, "all"),
      (4, "incrementalMarking"), (8, "processWeakCallbacks"), (15, "all")] := by decide
  unfold nameOf Map.read
  rw [ht]
  simp only [Map.find]
  have e : ∀ a : Nat, (a = code % 256) = (code % 256 = a) := fun a => propext eq_comm
  simp only [e]
  repeat' split
  all_goals rfl

theorem nameOf_mem (code : Nat) :
    nameOf code ∈ ["scavenge", "markSweepCompact", "incrementalMarking",
      "processWeakCallbacks", "all", ""] := by
  rw [nameOf_eq]
  repeat' split
  all_goals simp

end GarbageCollection

/-! ## Heap snapshot collector -/

namespace Heap

theorem injectLoop_eq (isolate : Isolate) (hn : isolate.NumberOfHeapSpaces < 2 ^ 32)
    (fuel i : Nat) (spaces : List Object) (hi : i ≤ isolate.NumberOfHeapSpaces)
    (hfuel : isolate.NumberOfHeapSpaces - i < fuel) :
    injectLoop isolate fuel i spaces =
      some (spaces ++ (List.range' i (isolate.NumberOfHeapSpaces - i)).filterMap
        (fun j => (isolate.GetHeapSpaceStatistics j).map space)) := by
  induction fuel generalizing i spaces with
  | zero => omega
  | succ fuel ih =>
    unfold injectLoop
    by_cases hlt : i < isolate.NumberOfHeapSpaces
    · have hw : wrap32 (i + 1) = i + 1 := by
        unfold wrap32
        omega
      have hk : isolate.NumberOfHeapSpaces - i = (isolate.NumberOfHeapSpaces - (i + 1)) + 1 := by
        omega
      rw [if_pos hlt, hw, hk, List.range'_succ]
      cases hq : isolate.GetHeapSpaceStatistics i with
      | none =>
        simp only [List.filterMap_cons, hq, Option.map_none']
        exact ih (i + 1) spaces (by omega) (by omega)
      | some stats =>
        simp only [List.filterMap_cons, hq, Option.map_some']
        rw [ih (i + 1) (spaces ++ [space stats]) (by omega) (by omega)]
        simp
    · have h0 : isolate.NumberOfHeapSpaces - i = 0 := by omega
      rw [if_neg hlt, h0]
      simp

end Heap

/-! ## Event-loop lag collector -/

namespace EventLoop

theorem check_cb_eq (self : EventLoop) (now : Nat) :
    self.check_cb now =
      { self with histogram_ := self.histogram_.add (self.latency now), check_time_ := now } :=
  rfl

theorem step_check_time (est : Estimator) (self : EventLoop) (ev : LoopEvent)
    (h : ∀ now, ev ≠ LoopEvent.check now) :
    (step est self ev).check_time_ = self.check_time_ := by
  cases ev with
  | enable => rfl
  | disable => rfl
  | prepare now backend_timeout =>
    show (if self.prepare_handle_ then self.prepare_cb now backend_timeout
      else self).check_time_ = self.check_time_
    cases self.prepare_handle_ <;> rfl
  | check now => exact absurd rfl (h now)
  | inject carrier => rfl

theorem foldl_check_time (est : Estimator) (events : List LoopEvent) (self : EventLoop)
    (h : ∀ now, LoopEvent.check now ∉ events) :
    (events.foldl (step est) self).check_time_ = self.check_time_ := by
  induction events generalizing self with
  | nil => rfl
  | cons ev rest ih =>
    rw [List.foldl_cons, ih _ (fun now hm => h now (List.mem_cons_of_mem _ hm))]
    apply step_check_time
    intro now e
    exact h now (by rw [e]; exact List.mem_cons_self _ _)

end EventLoop

namespace Histogram

theorem mul_length_le_sum (vs : List Nat) (a : Nat) (h : ∀ v ∈ vs, a ≤ v) :
    a * vs.length ≤ vs.sum := by
  induction vs with
  | nil => simp
  | cons x rest ih =>
    have hx := h x (List.mem_cons_self _ _)
    have hr := ih (fun v hv => h v (List.mem_cons_of_mem _ hv))
    simp only [List.length_cons, List.sum_cons, Nat.mul_succ]
    omega

theorem sum_le_mul_length (vs : List Nat) (b : Nat) (h : ∀ v ∈ vs, v ≤ b) :
    vs.sum ≤ vs.length * b := by
  induction vs with
  | nil => simp
  | cons x rest ih =>
    have hx := h x (List.mem_cons_self _ _)
    have hr := ih (fun v hv => h v (List.mem_cons_of_mem _ hv))
    simp only [List.length_cons, List.sum_cons, Nat.succ_mul]
    omega

theorem avg_between (vs : List Nat) (hne : vs ≠ []) (hlen : vs.length ≤ 2 ^ 64)
    (htotal : vs.sum < 2 ^ 64) :
    (addAll new vs).min ≤ (addAll new vs).avg ∧
      (addAll new vs).avg ≤ (addAll new vs).max := by
  obtain ⟨_, _, hall⟩ := min_max_addAll vs hne hlen
  have hlo := mul_length_le_sum vs (addAll new vs).min_ (fun v hv => (hall v hv).1)
  have hhi := sum_le_mul_length vs (addAll new vs).max_ (fun v hv => (hall v hv).2)
  have hs : (addAll new vs).sum_ = vs.sum := by
    rw [sum_addAll, Nat.mod_eq_of_lt htotal]
  have hpos : 0 < vs.length := List.length_pos.mpr hne
  show (addAll new vs).min_ ≤ (addAll new vs).avg ∧ (addAll new vs).avg ≤ (addAll new vs).max_
  rw [avg_eq, count_addAll, hs]
  rcases Nat.lt_or_eq_of_le hlen with hlt | heq
  · rw [Nat.mod_eq_of_lt hlt, if_neg (by omega)]
    exact ⟨(Nat.le_div_iff_mul_le hpos).mpr hlo, Nat.div_le_of_le_mul hhi⟩
  · rw [heq, Nat.mod_self, if_pos rfl]
    refine ⟨?_, Nat.zero_le _⟩
    rw [heq] at hlo
    by_contra hc
    have h1 : 1 ≤ (addAll new vs).min_ := by omega
    have h2 : 1 * 2 ^ 64 ≤ (addAll new vs).min_ * 2 ^ 64 := Nat.mul_le_mul_right _ h1
    omega

end Histogram

/-! ## Ordered maps -/

namespace Map

theorem mem_insert {α : Type} (m : List (Nat × α)) (k : Nat) (v : α) (e : Nat × α)
    (h : e ∈ insert m k v) : e = (k, v) ∨ e ∈ m := by
  induction m with
  | nil =>
    simp only [insert, List.mem_singleton] at h
    exact Or.inl h
  | cons e0 rest ih =>
    obtain ⟨j, w⟩ := e0
    unfold insert at h
    split at h
    · rcases List.mem_cons.mp h with h | h
      · exact Or.inl h
      · exact Or.inr h
    · split at h
      · rcases List.mem_cons.mp h with h | h
        · exact Or.inl h
        · exact Or.inr (List.mem_cons_of_mem _ h)
      · rcases List.mem_cons.mp h with h | h
        · exact Or.inr (by rw [h]; exact List.mem_cons_self _ _)
        · rcases ih h with h | h
          · exact Or.inl h
          · exact Or.inr (List.mem_cons_of_mem _ h)

theorem ordered_insert {α : Type} (m : List (Nat × α)) (k : Nat) (v : α)
    (h : Ordered m) : Ordered (insert m k v) := by
  induction m with
  | nil => simp [insert, Ordered]
  | cons e0 rest ih =>
    obtain ⟨j, w⟩ := e0
    unfold Ordered at h ih ⊢
    rw [List.pairwise_cons] at h
    unfold insert
    split
    · rename_i hlt
      rw [List.pairwise_cons]
      refine ⟨?_, List.pairwise_cons.mpr h⟩
      intro e he
      rcases List.mem_cons.mp he with he | he
      · rw [he]
        exact hlt
      · exact Nat.lt_trans hlt (h.1 e he)
    · split
      · rename_i heq
        rw [List.pairwise_cons]
        refine ⟨?_, h.2⟩
        intro e he
        rw [heq]
        exact h.1 e he
      · rename_i hlt heq
        rw [List.pairwise_cons]
        refine ⟨?_, ih h.2⟩
        intro e he
        rcases mem_insert rest k v e he with he | he
        · rw [he]
          show j < k
          omega
        · exact h.1 e he

theorem find_none_of_lt {α : Type} (m : List (Nat × α)) (k : Nat)
    (h : ∀ e ∈ m, k < e.1) : find m k = none := by
  induction m with
  | nil => rfl
  | cons e0 rest ih =>
    obtain ⟨j, w⟩ := e0
    have hj : k < j := h (j, w) (List.mem_cons_self _ _)
    have hne : ¬ j = k := by omega
    simp only [find, if_neg hne]
    exact ih (fun e he => h e (List.mem_cons_of_mem _ he))

theorem sum_insert {α : Type} (g : Nat × α → Nat) (m : List (Nat × α)) (k : Nat) (v : α)
    (h : Ordered m) :
    ((insert m k v).map g).sum + (match find m k with
        | some w => g (k, w)
        | none => 0) = (m.map g).sum + g (k, v) := by
  induction m with
  | nil => simp [insert, find]
  | cons e0 rest ih =>
    obtain ⟨j, w⟩ := e0
    unfold Ordered at h ih
    rw [List.pairwise_cons] at h
    unfold insert
    split
    · rename_i hlt
      have hnone : find ((j, w) :: rest) k = none := by
        apply find_none_of_lt
        intro e he
        rcases List.mem_cons.mp he with he | he
        · rw [he]
          exact hlt
        · exact Nat.lt_trans hlt (h.1 e he)
      rw [hnone]
      simp only [List.map_cons, List.sum_cons]
      omega
    · split
      · rename_i heq
        subst heq
        simp only [find, if_true, List.map_cons, List.sum_cons]
        omega
      · rename_i hlt heq
        have hne : ¬ j = k := fun e => heq e.symm
        have hrec := ih h.2
        simp only [find, if_neg hne, List.map_cons, List.sum_cons]
        omega

theorem ordered_index {α : Type} (m : List (Nat × α)) (k : Nat) (d : α)
    (h : Ordered m) : Ordered (index m k d) := by
  unfold index
  cases find m k with
  | none => exact ordered_insert m k d h
  | some _ => exact h

theorem sum_index {α : Type} (g : Nat × α → Nat) (m : List (Nat × α)) (k : Nat) (d : α)
    (h : Ordered m) (hd : g (k, d) = 0) :
    ((index m k d).map g).sum = (m.map g).sum := by
  unfold index
  cases hf : find m k with
  | none =>
    have := sum_insert g m k d h
    rw [hf] at this
    simp only at this
    show ((insert m k d).map g).sum = (m.map g).sum
    omega
  | some _ => rfl

end Map

/-! ## GC pause collector: aggregate and per-type histograms -/

namespace GarbageCollection

theorem share_new (f : Histogram → Nat) (hf : f Histogram.new = 0) (k : Nat) :
    share f (k, Histogram.new) = 0 := by
  unfold share
  split
  · rfl
  · exact hf

theorem ordered_addTo (pause : List (Nat × Histogram)) (type usage : Nat)
    (h : Map.Ordered pause) : Map.Ordered (addTo pause type usage) :=
  Map.ordered_insert _ _ _ (Map.ordered_index _ _ _ h)

theorem total_addTo (f : Histogram → Nat) (hf : f Histogram.new = 0)
    (pause : List (Nat × Histogram)) (type usage : Nat) (h : Map.Ordered pause) :
    totalOthers f (addTo pause type usage) +
        share f (type, Map.read pause type Histogram.new) =
      totalOthers f pause +
        share f (type, (Map.read pause type Histogram.new).add usage) := by
  have hs := Map.sum_insert (share f) (Map.index pause type Histogram.new) type
    ((Map.read pause type Histogram.new).add usage) (Map.ordered_index _ _ _ h)
  rw [Map.find_index, if_pos rfl] at hs
  simp only at hs
  rw [Map.sum_index (share f) pause type Histogram.new h (share_new f hf type)] at hs
  exact hs

theorem ordered_after (self : GarbageCollection) (type now : Nat)
    (h : Map.Ordered self.pause_) : Map.Ordered (self.after type now).pause_ := by
  rw [after_pause_eq]
  exact ordered_addTo _ _ _ (ordered_addTo _ _ _ (Map.ordered_index _ _ _ h))

theorem total_after (f : Histogram → Nat) (hf : f Histogram.new = 0)
    (self : GarbageCollection) (type now : Nat) (h : Map.Ordered self.pause_) :
    totalOthers f (self.after type now).pause_ +
        share f (type, Map.read self.pause_ type Histogram.new) =
      totalOthers f self.pause_ +
        share f (type, (Map.read self.pause_ type Histogram.new).add
          (sub64 now self.start_time_)) := by
  rw [after_pause_eq]
  have h0 := Map.ordered_index self.pause_ type Histogram.new h
  have h1 := total_addTo f hf (Map.index self.pause_ type Histogram.new) type
    (sub64 now self.start_time_) h0
  have h2 := total_addTo f hf
    (addTo (Map.index self.pause_ type Histogram.new) type (sub64 now self.start_time_))
    kGCTypeAll (sub64 now self.start_time_) (ordered_addTo _ _ _ h0)
  have hz : ∀ x : Histogram, share f (kGCTypeAll, x) = 0 := fun x => by simp [share]
  rw [hz, hz] at h2
  rw [read_index_self] at h1
  have h3 : totalOthers f (Map.index self.pause_ type Histogram.new) =
      totalOthers f self.pause_ :=
    Map.sum_index (share f) self.pause_ type Histogram.new h (share_new f hf type)
  rw [h3] at h1
  omega

theorem aggregate_after (self : GarbageCollection) (type now : Nat)
    (h : type ≠ kGCTypeAll) :
    (self.after type now).aggregate = self.aggregate.add (sub64 now self.start_time_) := by
  unfold aggregate Map.read
  rw [find_after, if_pos rfl, if_neg h]
  rfl

theorem ordered_map_reset (pause : List (Nat × Histogram)) (h : Map.Ordered pause) :
    Map.Ordered (pause.map (fun e => (e.1, e.2.reset))) := by
  unfold Map.Ordered at h ⊢
  rw [List.pairwise_map]
  exact h

theorem total_map_reset (f : Histogram → Nat) (hf : f Histogram.new = 0)
    (pause : List (Nat × Histogram)) :
    totalOthers f (pause.map (fun e => (e.1, e.2.reset))) = 0 := by
  induction pause with
  | nil => rfl
  | cons e rest ih =>
    unfold totalOthers at ih ⊢
    simp only [List.map_cons, List.sum_cons, ih, Nat.add_zero]
    exact share_new f hf e.1

theorem read_map_reset (pause : List (Nat × Histogram)) (k : Nat) :
    Map.read (pause.map (fun e => (e.1, e.2.reset))) k Histogram.new = Histogram.new := by
  induction pause with
  | nil => rfl
  | cons e rest ih =>
    obtain ⟨j, w⟩ := e
    unfold Map.read at ih ⊢
    by_cases h : j = k
    · simp only [List.map_cons, Map.find, if_pos h]
      rfl
    · simp only [List.map_cons, Map.find, if_neg h]
      exact ih

theorem balanced_new : Balanced new := by
  refine ⟨?_, rfl, rfl⟩
  simp [new, Map.insert, Map.Ordered]

theorem balanced_after (self : GarbageCollection) (type now : Nat)
    (hb : Balanced self) (h : type ≠ kGCTypeAll) : Balanced (self.after type now) := by
  obtain ⟨ho, hc, hs⟩ := hb
  have tc := total_after Histogram.count rfl self type now ho
  have ts := total_after Histogram.sum rfl self type now ho
  simp only [share, if_neg h] at tc ts
  refine ⟨ordered_after self type now ho, ?_, ?_⟩
  · rw [aggregate_after self type now h]
    show wrap64 (self.aggregate.count_ + 1) = _
    have hc2 : self.aggregate.count_ = totalOthers Histogram.count self.pause_ % 2 ^ 64 := hc
    have e1 : ((Map.read self.pause_ type Histogram.new).add
        (sub64 now self.start_time_)).count =
        wrap64 ((Map.read self.pause_ type Histogram.new).count + 1) := rfl
    rw [e1] at tc
    unfold wrap64 at tc ⊢
    rw [hc2]
    omega
  · rw [aggregate_after self type now h]
    show wrap64 (self.aggregate.sum_ + sub64 now self.start_time_) = _
    have hs2 : self.aggregate.sum_ = totalOthers Histogram.sum self.pause_ % 2 ^ 64 := hs
    have e1 : ((Map.read self.pause_ type Histogram.new).add
        (sub64 now self.start_time_)).sum =
        wrap64 ((Map.read self.pause_ type Histogram.new).sum +
          sub64 now self.start_time_) := rfl
    rw [e1] at ts
    unfold wrap64 at ts ⊢
    rw [hs2]
    omega

theorem balanced_inject (est : Estimator) (self : GarbageCollection) (carrier : Object)
    (hb : Balanced self) : Balanced (self.inject est carrier).1 := by
  have hp : (self.inject est carrier).1.pause_ =
      self.pause_.map (fun e => (e.1, e.2.reset)) := injectLoop_pause est _ _ _
  unfold Balanced aggregate
  rw [hp, read_map_reset, total_map_reset Histogram.count rfl,
    total_map_reset Histogram.sum rfl]
  exact ⟨ordered_map_reset _ hb.1, rfl, rfl⟩

theorem run_balanced (est : Estimator) (events : List GCEvent)
    (h : ∀ now, GCEvent.after kGCTypeAll now ∉ events) : Balanced (run est events) := by
  induction events using List.reverseRecOn with
  | nil => exact balanced_new
  | append_singleton evs ev ih =>
    rw [run_append]
    have ih2 := ih (fun now hm => h now (List.mem_append_left _ hm))
    cases ev with
    | before type now => exact ih2
    | after type now =>
      apply balanced_after _ _ _ ih2
      intro e
      apply h now
      rw [e]
      simp
    | inject carrier => exact balanced_inject est _ carrier ih2

theorem run_ordered (est : Estimator) (events : List GCEvent) :
    Map.Ordered (run est events).pause_ := by
  induction events using List.reverseRecOn with
  | nil => simp [run, new, Map.insert, Map.Ordered]
  | append_singleton evs ev ih =>
    rw [run_append]
    cases ev with
    | before type now => exact ih
    | after type now => exact ordered_after _ type now ih
    | inject carrier =>
      have hp : (step est (run est evs) (GCEvent.inject carrier)).pause_ =
          (run est evs).pause_.map (fun e => (e.1, e.2.reset)) := injectLoop_pause est _ _ _
      rw [hp]
      exact ordered_map_reset _ ih

theorem run_total_count_le (est : Estimator) (events : List GCEvent) :
    totalOthers Histogram.count (run est events).pause_ ≤ events.length := by
  induction events using List.reverseRecOn with
  | nil => exact Nat.le_refl 0
  | append_singleton evs ev ih =>
    rw [run_append, List.length_append, List.length_singleton]
    cases ev with
    | before type now => exact Nat.le_succ_of_le ih
    | after type now =>
      have tc := total_after Histogram.count rfl (run est evs) type now (run_ordered est evs)
      have e1 : ((Map.read (run est evs).pause_ type Histogram.new).add
          (sub64 now (run est evs).start_time_)).count =
          wrap64 ((Map.read (run est evs).pause_ type Histogram.new).count + 1) := rfl
      show totalOthers Histogram.count ((run est evs).after type now).pause_ ≤ _
      unfold share at tc
      simp only [e1] at tc
      unfold wrap64 at tc
      split at tc <;> omega
    | inject carrier =>
      have hp : (step est (run est evs) (GCEvent.inject carrier)).pause_ =
          (run est evs).pause_.map (fun e => (e.1, e.2.reset)) := injectLoop_pause est _ _ _
      rw [hp, total_map_reset Histogram.count rfl]
      exact Nat.zero_le _

end GarbageCollection

/-! ## GC pause collector: the key `all` -/

namespace Object

theorem get_put_ne (o : Object) (key k : String) (value : Value) (h : key ≠ k) :
    get (put o key value) k = get o k := by
  induction o with
  | nil => simp [put, get, h]
  | cons e rest ih =>
    obtain ⟨j, v⟩ := e
    by_cases hj : j = key
    · subst hj
      simp [put, get, h]
    · by_cases hk : j = k
      · subst hk
        simp [put, get, hj]
      · simp [put, get, hj, hk, ih]

end Object

namespace GarbageCollection

theorem nameOf_ne_all (code : Nat) (h1 : kGCTypeAll < code) (h2 : code < 256) :
    nameOf code ≠ "all" := by
  have hm : code % 256 = code := Nat.mod_eq_of_lt h2
  have h15 : 15 < code := h1
  rw [nameOf_eq, hm, if_neg (by omega), if_neg (by omega), if_neg (by omega),
    if_neg (by omega), if_neg (by omega), if_neg (by omega)]
  decide

theorem get_written_other (est : Estimator) (pause : List (Nat × Histogram))
    (value : Object) (k : String) (h : ∀ e ∈ pause, nameOf e.1 ≠ k) :
    Object.get (pause.foldl (fun o e => Object.setHistogram est o (nameOf e.1) e.2) value) k =
      Object.get value k := by
  induction pause generalizing value with
  | nil => rfl
  | cons e rest ih =>
    rw [List.foldl_cons, ih _ (fun x hx => h x (List.mem_cons_of_mem _ hx))]
    exact Object.get_put_ne value _ k _ (h e (List.mem_cons_self _ _))

theorem get_written_all (est : Estimator) (pause : List (Nat × Histogram))
    (value : Object) (hist : Histogram) (ho : Map.Ordered pause)
    (hf : Map.find pause kGCTypeAll = some hist) (hc : ∀ e ∈ pause, e.1 < 256) :
    Object.get (pause.foldl (fun o e => Object.setHistogram est o (nameOf e.1) e.2) value)
      "all" = some (Value.obj (Object.ofHistogram est hist)) := by
  induction pause generalizing value with
  | nil => simp [Map.find] at hf
  | cons e rest ih =>
    obtain ⟨code, h0⟩ := e
    unfold Map.Ordered at ho ih
    rw [List.pairwise_cons] at ho
    rw [List.foldl_cons]
    by_cases hcode : code = kGCTypeAll
    · subst hcode
      simp only [Map.find, if_true, Option.some.injEq] at hf
      subst hf
      rw [get_written_other]
      · exact Object.get_put value "all" _
      · intro x hx
        exact nameOf_ne_all x.1 (ho.1 x hx) (hc x (List.mem_cons_of_mem _ hx))
    · simp only [Map.find, if_neg hcode] at hf
      exact ih _ ho.2 hf (fun x hx => hc x (List.mem_cons_of_mem _ hx))

theorem run_find_aggregate (est : Estimator) (events : List GCEvent) :
    Map.find (run est events).pause_ kGCTypeAll = some (run est events).aggregate := by
  have h := (run_has_histogram est events kGCTypeAll).mpr (Or.inl rfl)
  unfold aggregate Map.read
  cases hf : Map.find (run est events).pause_ kGCTypeAll with
  | none =>
    rw [hf] at h
    exact absurd h (by simp)
  | some v => rfl

theorem run_codes_lt (est : Estimator) (events : List GCEvent)
    (hcodes : ∀ type now, GCEvent.after type now ∈ events → type < 256) :
    ∀ e ∈ (run est events).pause_, e.1 < 256 := by
  intro e he
  have hs : (Map.find (run est events).pause_ e.1).isSome = true :=
    (Map.find_isSome_iff _ _).mpr ⟨e, he, rfl⟩
  rcases (run_has_histogram est events e.1).mp hs with h | ⟨now, h⟩
  · rw [h]
    decide
  · exact hcodes e.1 now h

end GarbageCollection

/-! ## GC pause collector: two snapshots in a row -/

namespace Object

theorem keys_put (o : Object) (key : String) (value : Value) :
    keys (put o key value) = if key ∈ keys o then keys o else keys o ++ [key] := by
  induction o with
  | nil => simp [put, keys]
  | cons e rest ih =>
    obtain ⟨k, v⟩ := e
    unfold keys at ih ⊢
    by_cases h : k = key
    · subst h
      simp [put]
    · have h2 : ¬ key = k := fun e => h e.symm
      simp only [put, if_neg h, List.map_cons, ih, List.mem_cons, h2, false_or]
      split <;> simp

theorem keys_put_congr (o1 o2 : Object) (key : String) (v1 v2 : Value)
    (h : keys o1 = keys o2) : keys (put o1 key v1) = keys (put o2 key v2) := by
  rw [keys_put, keys_put, h]

end Object

namespace GarbageCollection

theorem injectLoop_types_read (est : Estimator) (pause : List (Nat × Histogram))
    (types : List (Nat × String)) (value : Object) (j : Nat) :
    Map.read (injectLoop est pause types value).2.1 j "" = Map.read types j "" := by
  induction pause generalizing types value with
  | nil => rfl
  | cons e rest ih =>
    obtain ⟨code, hist⟩ := e
    simp only [injectLoop]
    rw [ih, Map.read_index]

theorem injectLoop_value_read (est : Estimator) (pause : List (Nat × Histogram))
    (types : List (Nat × String)) (value : Object) :
    (injectLoop est pause types value).2.2 =
      pause.foldl (fun o e =>
        Object.setHistogram est o (Map.read types (e.1 % 256) "") e.2) value := by
  induction pause generalizing types value with
  | nil => rfl
  | cons e rest ih =>
    obtain ⟨code, hist⟩ := e
    simp only [injectLoop, List.foldl_cons]
    rw [ih]
    simp only [Map.read_index]

theorem foldl_reset_written (est : Estimator) (name : Nat → String)
    (pause : List (Nat × Histogram)) (value : Object) :
    (pause.map (fun e => (e.1, e.2.reset))).foldl
        (fun o e => Object.setHistogram est o (name e.1) e.2) value =
      pause.foldl (fun o e => Object.put o (name e.1) (Value.obj Object.zeroStats))
        value := by
  induction pause generalizing value with
  | nil => rfl
  | cons e rest ih =>
    simp only [List.map_cons, List.foldl_cons]
    rw [ih]
    rfl

theorem keys_written_congr (est : Estimator) (name : Nat → String)
    (pause : List (Nat × Histogram)) (v1 v2 : Object)
    (h : Object.keys v1 = Object.keys v2) :
    Object.keys (pause.foldl
        (fun o e => Object.put o (name e.1) (Value.obj Object.zeroStats)) v1) =
      Object.keys (pause.foldl
        (fun o e => Object.setHistogram est o (name e.1) e.2) v2) := by
  induction pause generalizing v1 v2 with
  | nil => exact h
  | cons e rest ih =>
    simp only [List.foldl_cons]
    exact ih _ _ (Object.keys_put_congr v1 v2 _ _ _ h)

theorem values_written_zero (name : Nat → String) (pause : List (Nat × Histogram))
    (value : Object) (hv : ∀ e ∈ value, e.2 = Value.obj Object.zeroStats) :
    ∀ e ∈ pause.foldl
        (fun o e => Object.put o (name e.1) (Value.obj Object.zeroStats)) value,
      e.2 = Value.obj Object.zeroStats := by
  induction pause generalizing value with
  | nil => exact hv
  | cons e0 rest ih =>
    simp only [List.foldl_cons]
    exact ih _ (Object.values_put value _ _ hv)

end GarbageCollection

/-- C1: for every non-empty sequence of samples (of at most `2 ^ 64` samples, what
the 64-bit counter `count_` can tell apart from an empty histogram) added to a
freshly constructed or just reset histogram, `min()` is the smallest sample and
`max()` the largest: both are among the samples, and `min() <= v <= max()` for every
added sample `v`. -/
theorem histogram_min_max_of_samples (h0 : Histogram) (vs : List Nat)
    (hne : vs ≠ []) (hlen : vs.length ≤ 2 ^ 64) :
    (Histogram.addAll h0.reset vs).min ∈ vs ∧
    (Histogram.addAll h0.reset vs).max ∈ vs ∧
    ∀ v ∈ vs, (Histogram.addAll h0.reset vs).min ≤ v ∧
      v ≤ (Histogram.addAll h0.reset vs).max :=
  Histogram.min_max_addAll vs hne hlen

/-- C1 at `add(10); add(20); add(30)` on a fresh histogram: `min = 10` and
`max = 30`, within the bounds given by the general statement. -/
theorem histogram_min_max_of_samples_witness :
    ((Histogram.addAll Histogram.new [10, 20, 30]).min = 10 ∧
     (Histogram.addAll Histogram.new [10, 20, 30]).max = 30) ∧
    ((Histogram.addAll Histogram.new [10, 20, 30]).min ∈ [10, 20, 30] ∧
     (Histogram.addAll Histogram.new [10, 20, 30]).max ∈ [10, 20, 30] ∧
     ∀ v ∈ [10, 20, 30], (Histogram.addAll Histogram.new [10, 20, 30]).min ≤ v ∧
       v ≤ (Histogram.addAll Histogram.new [10, 20, 30]).max) :=
  ⟨by decide,
   histogram_min_max_of_samples Histogram.new [10, 20, 30] (by decide) (by norm_num)⟩

/-- C2, as stated, fails: after `add(2^64 - 1); add(1)` on a fresh histogram the
64-bit sum has wrapped to `0`, while the total of the two samples is `2 ^ 64`. -/
theorem histogram_sum_wraps :
    (∀ v ∈ [18446744073709551615, 1], v < 2 ^ 64) ∧
    (Histogram.addAll Histogram.new [18446744073709551615, 1]).sum = 0 ∧
    (Histogram.addAll Histogram.new [18446744073709551615, 1]).sum ≠
      18446744073709551615 + 1 := by
  refine ⟨?_, ?_, ?_⟩
  · intro v hv
    simp only [List.mem_cons, List.mem_singleton, List.not_mem_nil, or_false] at hv
    rcases hv with rfl | rfl <;> norm_num
  · decide
  · decide

/-- C2, amended: for every sequence of samples added to a fresh histogram,
`count()` is the number of samples modulo `2 ^ 64` and `sum()` is their total
modulo `2 ^ 64`. -/
theorem histogram_count_sum_mod (vs : List Nat) :
    (Histogram.addAll Histogram.new vs).count = vs.length % 2 ^ 64 ∧
    (Histogram.addAll Histogram.new vs).sum = vs.sum % 2 ^ 64 :=
  ⟨Histogram.count_addAll vs, Histogram.sum_addAll vs⟩

/-- C3: the queries never fault. The execution of `avg()` always yields a result
(the fallible division is never reached with a zero divisor), that result is `0`
when `count == 0` and the floor quotient `sum / count` otherwise, and
`percentile(q)` is `0` for every `q` when `count == 0`. -/
theorem histogram_queries_never_fault (est : Estimator) (h : Histogram) (q : Rat) :
    h.avgExec = some h.avg ∧
    h.avg = (if h.count = 0 then 0 else h.sum / h.count) ∧
    h.percentile est q = (if h.count = 0 then 0 else est h.digest_ q) := by
  refine ⟨?_, Histogram.avg_eq h, rfl⟩
  rw [Histogram.avg_eq, Histogram.avgExec_eq]

/-- C4: `reset()` on any histogram state, in particular one reached by any sequence
of `add` calls, yields the state of a freshly constructed histogram: `min`, `max`,
`sum`, `count`, `avg` and every `percentile(q)` are `0`, and the digest is a new one
with compression factor 1000. -/
theorem histogram_reset_is_fresh (est : Estimator) (h0 : Histogram) (vs : List Nat)
    (q : Rat) :
    (Histogram.addAll h0 vs).reset = Histogram.new ∧
    (Histogram.addAll h0 vs).reset.min = 0 ∧
    (Histogram.addAll h0 vs).reset.max = 0 ∧
    (Histogram.addAll h0 vs).reset.sum = 0 ∧
    (Histogram.addAll h0 vs).reset.count = 0 ∧
    (Histogram.addAll h0 vs).reset.avg = 0 ∧
    (Histogram.addAll h0 vs).reset.percentile est q = 0 ∧
    (Histogram.addAll h0 vs).reset.digest_ = { compression := 1000, values := [] } :=
  ⟨rfl, rfl, rfl, rfl, rfl, rfl, rfl, rfl⟩

/-! ## GC pause collector: claims -/

/-- C5, as stated, fails for the wildcard code 15, the code of the aggregate: the
type histogram and the aggregate are then one histogram, which `after` increments
twice, so `before(15)`, 500 units, `after(15)` leaves it with count 2 and sum 1000. -/
theorem gc_wildcard_event_counted_twice :
    kGCTypeAll = 15 ∧
    (Map.find ((GarbageCollection.new.before 15 0).after 15 500).pause_ 15).map
      Histogram.count = some 2 ∧
    (Map.find ((GarbageCollection.new.before 15 0).after 15 500).pause_ 15).map
      Histogram.sum = some 1000 := by
  decide

/-- C5, amended: for every GC type code `A` other than the wildcard code 15 (so for
scavenge 1, markSweepCompact 2, incrementalMarking 4, processWeakCallbacks 8 and
the code 3 named `all`) and every elapsed time `d`, on a freshly constructed
collector `before(A)` at time `t0` followed by `after(A)` at time `t0 + d` leaves
both the histogram of `A` and the aggregate histogram holding the single sample
`d`: count 1 and sum `d`. -/
theorem gc_before_after_records_once (A t0 d : Nat) (hA : A ≠ kGCTypeAll)
    (hd : t0 + d < 2 ^ 64) :
    Map.find ((GarbageCollection.new.before A t0).after A (t0 + d)).pause_ A =
      some (Histogram.new.add d) ∧
    Map.find ((GarbageCollection.new.before A t0).after A (t0 + d)).pause_ kGCTypeAll =
      some (Histogram.new.add d) ∧
    (Histogram.new.add d).count = 1 ∧ (Histogram.new.add d).sum = d := by
  have hu : sub64 (t0 + d) (GarbageCollection.new.before A t0).start_time_ = d :=
    GarbageCollection.sub64_add_left t0 d hd
  have hAll : Map.read (GarbageCollection.new.before A t0).pause_ kGCTypeAll Histogram.new =
      Histogram.new := rfl
  have hNone : Map.find (GarbageCollection.new.before A t0).pause_ A = none := by
    show Map.find [(kGCTypeAll, Histogram.new)] A = none
    have : ¬ kGCTypeAll = A := fun e => hA e.symm
    simp [Map.find, this]
  have hRead : Map.read (GarbageCollection.new.before A t0).pause_ A Histogram.new =
      Histogram.new := by
    unfold Map.read
    rw [hNone]
    rfl
  refine ⟨?_, ?_, rfl, ?_⟩
  · rw [GarbageCollection.find_after, if_neg hA, if_pos rfl, hu, hRead]
  · rw [GarbageCollection.find_after, if_pos rfl, if_neg hA, hu, hAll]
  · show wrap64 (0 + d) = d
    unfold wrap64
    omega

/-- C5 at scavenge (code 1): `before(scavenge)` at time 1000, 500 units,
`after(scavenge)` leaves the scavenge histogram and the aggregate with count 1 and
sum 500. -/
theorem gc_before_after_records_once_witness :
    Map.find ((GarbageCollection.new.before 1 1000).after 1 (1000 + 500)).pause_ 1 =
      some (Histogram.new.add 500) ∧
    Map.find ((GarbageCollection.new.before 1 1000).after 1 (1000 + 500)).pause_ kGCTypeAll =
      some (Histogram.new.add 500) ∧
    (Histogram.new.add 500).count = 1 ∧ (Histogram.new.add 500).sum = 500 :=
  gc_before_after_records_once 1 1000 500 (by decide) (by norm_num)

/-- C6, as stated, fails: code 5 has no entry in the name table and no histogram in
a fresh collector, yet `after(5)` creates a histogram for code 5 and adds the pause
to it. -/
theorem gc_unmapped_code_gets_own_histogram :
    Map.find GarbageCollection.initialTypes (5 % 256) = none ∧
    Map.find GarbageCollection.new.pause_ 5 = none ∧
    (Map.find ((GarbageCollection.new.before 5 0).after 5 500).pause_ 5).map
      Histogram.count = some 1 ∧
    (Map.find ((GarbageCollection.new.before 5 0).after 5 500).pause_ 5).map
      Histogram.sum = some 500 := by
  decide

/-- C6, amended: for every GC type code that has no entry in the name table and
every state of the collector, `after(code)` adds the pause duration to the aggregate
histogram and to the histogram of that code, created empty when absent; the
histogram of every other code is left as it was. -/
theorem gc_after_unmapped_code (self : GarbageCollection) (code now : Nat)
    (hcode : Map.find GarbageCollection.initialTypes (code % 256) = none) :
    Map.find (self.after code now).pause_ kGCTypeAll =
      some ((Map.read self.pause_ kGCTypeAll Histogram.new).add
        (sub64 now self.start_time_)) ∧
    Map.find (self.after code now).pause_ code =
      some ((Map.read self.pause_ code Histogram.new).add (sub64 now self.start_time_)) ∧
    ∀ j, j ≠ code → j ≠ kGCTypeAll →
      Map.find (self.after code now).pause_ j = Map.find self.pause_ j := by
  have hne : code ≠ kGCTypeAll := by
    intro e
    rw [e] at hcode
    exact absurd hcode (by decide)
  refine ⟨?_, ?_, ?_⟩
  · rw [GarbageCollection.find_after, if_pos rfl, if_neg hne]
  · rw [GarbageCollection.find_after, if_neg hne, if_pos rfl]
  · intro j h1 h2
    rw [GarbageCollection.find_after, if_neg h2, if_neg h1]

/-- C6 at code 5 on a collector that has seen `before(5)` at time 0: `after(5)` at
time 500 adds 500 to the aggregate and to the new histogram of code 5. -/
theorem gc_after_unmapped_code_witness :
    Map.find GarbageCollection.initialTypes (5 % 256) = none ∧
    Map.find ((GarbageCollection.new.before 5 0).after 5 500).pause_ kGCTypeAll =
      some ((Map.read (GarbageCollection.new.before 5 0).pause_ kGCTypeAll
        Histogram.new).add (sub64 500 (GarbageCollection.new.before 5 0).start_time_)) ∧
    Map.find ((GarbageCollection.new.before 5 0).after 5 500).pause_ 5 =
      some ((Map.read (GarbageCollection.new.before 5 0).pause_ 5 Histogram.new).add
        (sub64 500 (GarbageCollection.new.before 5 0).start_time_)) ∧
    ∀ j, j ≠ 5 → j ≠ kGCTypeAll →
      Map.find ((GarbageCollection.new.before 5 0).after 5 500).pause_ j =
        Map.find (GarbageCollection.new.before 5 0).pause_ j :=
  ⟨by decide, gc_after_unmapped_code (GarbageCollection.new.before 5 0) 5 500 (by decide)⟩

/-- C7, as stated, fails: code 5 has no entry in the name table, and after
`before(5)`, `after(5)` the snapshot holds the keys `""` and `all`, in this order:
the histogram of code 5 is written under the empty string, which is none of the
five names, and not under `all`. -/
theorem gc_unmapped_code_written_under_empty_key :
    Map.find GarbageCollection.initialTypes (5 % 256) = none ∧
    (Object.get ((GarbageCollection.run (fun _ _ => 0)
        [GCEvent.before 5 0, GCEvent.after 5 500]).inject (fun _ _ => 0)
        Object.empty).2 "gc").map Value.keys = some ["", "all"] ∧
    "" ∉ ["scavenge", "markSweepCompact", "incrementalMarking",
      "processWeakCallbacks", "all"] := by
  decide

/-- C7, amended: in every reachable state of the collector, `inject` writes every
histogram of `pause_`, in ascending code order, into the object stored under `gc`,
under the name that the table of the constructor gives to its code converted to
`unsigned char`: `scavenge` for 1, `markSweepCompact` for 2, `incrementalMarking`
for 4, `processWeakCallbacks` for 8, `all` for 3 and for the wildcard code 15, and the
empty string for a code without entry. No histogram is written under a key outside
these five names and the empty string. -/
theorem gc_inject_keys_from_name_table (est : Estimator) (events : List GCEvent)
    (carrier : Object) :
    Object.get ((GarbageCollection.run est events).inject est carrier).2 "gc" =
      some (Value.obj ((GarbageCollection.run est events).pause_.foldl
        (fun o e => Object.setHistogram est o (GarbageCollection.nameOf e.1) e.2)
        Object.empty)) ∧
    (∀ code, GarbageCollection.nameOf code =
      if code % 256 = 1 then "scavenge"
      else if code % 256 = 2 then "markSweepCompact"
      else if code % 256 = 3 then "all"
      else if code % 256 = 4 then "incrementalMarking"
      else if code % 256 = 8 then "processWeakCallbacks"
      else if code % 256 = 15 then "all"
      else "") ∧
    ∀ k ∈ Object.keys ((GarbageCollection.run est events).pause_.foldl
        (fun o e => Object.setHistogram est o (GarbageCollection.nameOf e.1) e.2)
        Object.empty),
      k ∈ ["scavenge", "markSweepCompact", "incrementalMarking",
        "processWeakCallbacks", "all", ""] := by
  refine ⟨?_, GarbageCollection.nameOf_eq, ?_⟩
  · rw [GarbageCollection.inject_gc, GarbageCollection.injectLoop_value est _ _ _
      (GarbageCollection.run_typesOk est events)]
  · intro k hk
    rw [GarbageCollection.mem_keys_written] at hk
    rcases hk with hk | ⟨e, _, he⟩
    · simp [Object.keys, Object.empty] at hk
    · rw [← he]
      exact GarbageCollection.nameOf_mem e.1

/-- C8, as stated, fails: a freshly constructed collector has recorded no sample
(its only histogram, the aggregate, has count 0), yet `inject` writes the key
`all`. -/
theorem gc_inject_writes_empty_histogram :
    (Map.find GarbageCollection.new.pause_ kGCTypeAll).map Histogram.count = some 0 ∧
    (Object.get (GarbageCollection.new.inject (fun _ _ => 0) Object.empty).2 "gc").map
      Value.keys = some ["all"] := by
  decide

/-- C8, amended: in every reachable state of the collector, `inject` writes an entry
into the object stored under `gc` for a type code if and only if the code has a
histogram in `pause_`, that is, for the aggregate code 15 and for every code passed
to `after` since construction, whether or not a sample was recorded since the
previous `inject`: a key is present exactly when it is the name of such a code. -/
theorem gc_inject_writes_every_histogram (est : Estimator) (events : List GCEvent)
    (carrier : Object) :
    ∃ gcObj : Object,
      Object.get ((GarbageCollection.run est events).inject est carrier).2 "gc" =
        some (Value.obj gcObj) ∧
      ∀ k, k ∈ Object.keys gcObj ↔
        ∃ code, (code = kGCTypeAll ∨ ∃ now, GCEvent.after code now ∈ events) ∧
          GarbageCollection.nameOf code = k := by
  refine ⟨_, GarbageCollection.inject_gc est _ carrier, ?_⟩
  intro k
  rw [GarbageCollection.injectLoop_value est _ _ _
    (GarbageCollection.run_typesOk est events), GarbageCollection.mem_keys_written]
  constructor
  · rintro (h | ⟨e, he, hk⟩)
    · simp [Object.keys, Object.empty] at h
    · refine ⟨e.1, ?_, hk⟩
      rw [← GarbageCollection.run_has_histogram est events e.1, Map.find_isSome_iff]
      exact ⟨e, he, rfl⟩
  · rintro ⟨code, hc, hk⟩
    rw [← GarbageCollection.run_has_histogram est events code, Map.find_isSome_iff] at hc
    obtain ⟨e, he, hcode⟩ := hc
    exact Or.inr ⟨e, he, by rw [hcode]; exact hk⟩

/-- C9: `inject` is consume-and-reset. For every state of the event-loop collector
and of the GC collector, in particular every reachable one: `inject` leaves the
event-loop histogram and every histogram of `pause_` reset, keeping the codes; when
`inject` is called twice with no collector event in between, the second call writes
under `eventLoop` the record whose `min`, `max`, `sum`, `avg`, `count`, `median` and
`p95` are all 0, and under `gc` exactly one such all-zero record for every histogram
of `pause_`, under the key of its code, so under the same keys as the first call.
After a scavenge pause the second snapshot holds the keys `scavenge` and `all`. -/
theorem inject_twice_yields_zero (est : Estimator) (loop : EventLoop)
    (gc : GarbageCollection) (c1 c2 c3 c4 : Object) :
    (loop.inject est c1).1.histogram_ = Histogram.new ∧
    Object.get ((loop.inject est c1).1.inject est c2).2 "eventLoop" =
      some (Value.obj Object.zeroStats) ∧
    (gc.inject est c3).1.pause_ = gc.pause_.map (fun e => (e.1, Histogram.new)) ∧
    (∃ first second : Object,
      Object.get (gc.inject est c3).2 "gc" = some (Value.obj first) ∧
      Object.get ((gc.inject est c3).1.inject est c4).2 "gc" = some (Value.obj second) ∧
      first = gc.pause_.foldl (fun o e =>
        Object.setHistogram est o (Map.read gc.types_ (e.1 % 256) "") e.2)
        Object.empty ∧
      second = gc.pause_.foldl (fun o e =>
        Object.put o (Map.read gc.types_ (e.1 % 256) "") (Value.obj Object.zeroStats))
        Object.empty ∧
      Object.keys second = Object.keys first ∧
      ∀ e ∈ second, e.2 = Value.obj Object.zeroStats) ∧
    (Object.get (((GarbageCollection.run (fun _ _ => 0)
        [GCEvent.before 1 0, GCEvent.after 1 500]).inject (fun _ _ => 0)
        Object.empty).1.inject (fun _ _ => 0) Object.empty).2 "gc").map Value.keys =
      some ["scavenge", "all"] := by
  have hp : (gc.inject est c3).1.pause_ =
      gc.pause_.map (fun e => (e.1, e.2.reset)) :=
    GarbageCollection.injectLoop_pause est _ _ _
  have ht : (fun (o : Object) (e : Nat × Histogram) =>
      Object.setHistogram est o (Map.read (gc.inject est c3).1.types_ (e.1 % 256) "") e.2) =
      (fun (o : Object) (e : Nat × Histogram) =>
        Object.setHistogram est o (Map.read gc.types_ (e.1 % 256) "") e.2) := by
    funext o e
    show Object.setHistogram est o
      (Map.read (GarbageCollection.injectLoop est gc.pause_ gc.types_ Object.empty).2.1
        (e.1 % 256) "") e.2 = _
    rw [GarbageCollection.injectLoop_types_read]
  have hsecond : (GarbageCollection.injectLoop est (gc.inject est c3).1.pause_
      (gc.inject est c3).1.types_ Object.empty).2.2 =
      gc.pause_.foldl (fun o e =>
        Object.put o (Map.read gc.types_ (e.1 % 256) "") (Value.obj Object.zeroStats))
        Object.empty := by
    rw [GarbageCollection.injectLoop_value_read, ht, hp]
    exact GarbageCollection.foldl_reset_written est
      (fun code => Map.read gc.types_ (code % 256) "") gc.pause_ Object.empty
  refine ⟨rfl, Object.get_put c2 "eventLoop" _, hp, ?_, by decide⟩
  refine ⟨_, _, GarbageCollection.inject_gc est gc c3,
    GarbageCollection.inject_gc est _ c4,
    GarbageCollection.injectLoop_value_read est _ _ _, hsecond, ?_, ?_⟩
  · rw [hsecond, GarbageCollection.injectLoop_value_read]
    exact GarbageCollection.keys_written_congr est
      (fun code => Map.read gc.types_ (code % 256) "") gc.pause_ _ _ rfl
  · rw [hsecond]
    apply GarbageCollection.values_written_zero
      (fun code => Map.read gc.types_ (code % 256) "")
    intro e he
    simp [Object.empty] at he

/-! ## Event-loop lag collector: claims -/

/-- C10: for every state of the collector with `check_time_ = prev_check` and every
scripted `prepare`, `check` and backend timeout `t` (an `int` number of
milliseconds) with `prev_check <= prepare <= check` and `t` non-negative, the
prepare phase followed by the check phase adds exactly one sample to the histogram,
equal to `prepare - prev_check` plus the overrun `poll_time - t * 1000000` when
`poll_time = check - prepare` exceeds `t * 1000000` and plus 0 otherwise, and sets
`check_time_` to `check`. -/
theorem event_loop_check_latency (self : EventLoop) (prepare check : Nat) (t : Int)
    (h1 : self.check_time_ ≤ prepare) (h2 : prepare ≤ check) (h3 : check < 2 ^ 64)
    (h4 : 0 ≤ t) (h5 : t < 2 ^ 31) :
    ((self.prepare_cb prepare t).check_cb check).histogram_ =
      self.histogram_.add ((prepare - self.check_time_) +
        (if check - prepare > t.toNat * 1000000
          then (check - prepare) - t.toNat * 1000000 else 0)) ∧
    ((self.prepare_cb prepare t).check_cb check).check_time_ = check := by
  refine ⟨?_, rfl⟩
  obtain ⟨n, rfl⟩ := Int.eq_ofNat_of_zero_le h4
  have hn : n < 2 ^ 31 := by omega
  have ht : ((n : Int) % 2 ^ 64).toNat = n := by omega
  have hto : wrap64 (wrap64 (n * 1000) * 1000) = n * 1000000 := by
    unfold wrap64
    omega
  have hpoll : sub64 check prepare = check - prepare := by
    unfold sub64
    omega
  have hlat : sub64 prepare self.check_time_ = prepare - self.check_time_ := by
    unfold sub64
    omega
  simp only [EventLoop.check_cb, EventLoop.prepare_cb, ht, hto, hpoll, hlat,
    Int.toNat_ofNat]
  congr 1
  by_cases hover : check - prepare > n * 1000000
  · have hs : sub64 (check - prepare) (n * 1000000) = check - prepare - n * 1000000 := by
      unfold sub64
      omega
    rw [if_pos hover, if_pos hover, hs]
    unfold wrap64
    omega
  · rw [if_neg hover, if_neg hover]
    rfl

/-- C10 on two scripted iterations of a collector constructed at time 100 with a
5 ms timeout. Overrun: prepare at 150, check at 5000250, so the poll took 5000100
against 5000000 expected and the sample is 50 + 100. No overrun: prepare at 150,
check at 4000150, and the sample is 50 + 0. -/
theorem event_loop_check_latency_witness :
    (((EventLoop.new 100).prepare_cb 150 5).check_cb 5000250).histogram_ =
      (EventLoop.new 100).histogram_.add 150 ∧
    (((EventLoop.new 100).prepare_cb 150 5).check_cb 5000250).check_time_ = 5000250 ∧
    (((EventLoop.new 100).prepare_cb 150 5).check_cb 4000150).histogram_ =
      (EventLoop.new 100).histogram_.add 50 ∧
    (((EventLoop.new 100).prepare_cb 150 5).check_cb 4000150).check_time_ = 4000150 :=
  ⟨(event_loop_check_latency (EventLoop.new 100) 150 5000250 5
      (by decide) (by decide) (by norm_num) (by decide) (by norm_num)).1,
   (event_loop_check_latency (EventLoop.new 100) 150 5000250 5
      (by decide) (by decide) (by norm_num) (by decide) (by norm_num)).2,
   (event_loop_check_latency (EventLoop.new 100) 150 4000150 5
      (by decide) (by decide) (by norm_num) (by decide) (by norm_num)).1,
   (event_loop_check_latency (EventLoop.new 100) 150 4000150 5
      (by decide) (by decide) (by norm_num) (by decide) (by norm_num)).2⟩

/-! ## Entry points: claims -/

/-- C11, as stated, fails for the GC collector: after `start()`, a scavenge pause of
500 units (`before_gc(1)` at 0, `after_gc(1)` at 500) and `stop()`, the aggregate
histogram and the scavenge histogram still hold the sample, and a `stats()` call
made right after `stop()` reports it under `gc.all` and `gc.scavenge`. -/
theorem stop_keeps_gc_samples :
    (Map.find ((((Main.new 0).start.before_gc 1 0).after_gc 1 500).stop).gc.pause_
      kGCTypeAll).map Histogram.count = some 1 ∧
    (Map.find ((((Main.new 0).start.before_gc 1 0).after_gc 1 500).stop).gc.pause_
      1).map Histogram.count = some 1 ∧
    (((((Main.new 0).start.before_gc 1 0).after_gc 1 500).stop).stats (fun _ _ => 0)
      { NumberOfHeapSpaces := 0, GetHeapSpaceStatistics := fun _ => none } 1).map
      (fun r => (r.2.number "gc" "all" "count", r.2.number "gc" "scavenge" "sum")) =
      some (some 1, some 500) := by
  decide

/-- C11, amended: for every state, after `stop()` the event-loop histogram is in the
reset state (count 0), so the event-loop record of a snapshot taken right after
`stop()` is all zero; `stop()` only unregisters the two GC callbacks and leaves the
GC collector, with every pause histogram, as it was. -/
theorem stop_resets_event_loop_only (est : Estimator) (self : Main) (carrier : Object) :
    self.stop.eventLoop.histogram_ = Histogram.new ∧
    self.stop.eventLoop.histogram_.count = 0 ∧
    Object.get (self.stop.eventLoop.inject est carrier).2 "eventLoop" =
      some (Value.obj Object.zeroStats) ∧
    self.stop.gc = self.gc ∧
    self.stop.before_gc_added = false ∧ self.stop.after_gc_added = false :=
  ⟨rfl, rfl, Object.get_put carrier "eventLoop" _, rfl, rfl, rfl⟩

/-! ## Heap snapshot collector: claims -/

/-- C13: `Heap::inject` never fails and omits unavailable regions. For every number
`n` of heap spaces (within the range of the `unsigned int` loop index) and every
outcome of the per-region statistics query, the call returns as soon as it is given
room for `n + 1` tests of the loop condition, and the list written under
`heap.spaces` consists of exactly the regions whose query succeeded, in increasing
index order, each carrying `spaceName`, `size`, `usedSize`, `availableSize` and
`physicalSize` as returned by that query; its length is at most `n`. -/
theorem heap_inject_lists_available_spaces (isolate : Isolate) (fuel : Nat)
    (carrier : Object) (hn : isolate.NumberOfHeapSpaces < 2 ^ 32)
    (hfuel : isolate.NumberOfHeapSpaces < fuel) :
    (∃ result : Object,
      Heap.inject isolate fuel carrier = some result ∧
      Object.get result "heap" = some (Value.obj [("spaces", Value.arr
        (((List.range isolate.NumberOfHeapSpaces).filterMap
          (fun i => (isolate.GetHeapSpaceStatistics i).map Heap.space)).map
            Value.obj))])) ∧
    ((List.range isolate.NumberOfHeapSpaces).filterMap
      (fun i => (isolate.GetHeapSpaceStatistics i).map Heap.space)).length ≤
        isolate.NumberOfHeapSpaces ∧
    ∀ stats : HeapSpaceStatistics, Heap.space stats =
      [("spaceName", Value.str stats.space_name), ("size", Value.num stats.space_size),
       ("usedSize", Value.num stats.space_used_size),
       ("availableSize", Value.num stats.space_available_size),
       ("physicalSize", Value.num stats.physical_space_size)] := by
  refine ⟨?_, ?_, fun _ => rfl⟩
  · have hloop := Heap.injectLoop_eq isolate hn fuel 0 [] (Nat.zero_le _) (by omega)
    rw [Nat.sub_zero, List.nil_append, ← List.range_eq_range'] at hloop
    refine ⟨_, ?_, Object.get_put carrier "heap" _⟩
    unfold Heap.inject
    rw [hloop]
    rfl
  · calc ((List.range isolate.NumberOfHeapSpaces).filterMap
          (fun i => (isolate.GetHeapSpaceStatistics i).map Heap.space)).length
        ≤ (List.range isolate.NumberOfHeapSpaces).length := List.length_filterMap_le _ _
      _ = isolate.NumberOfHeapSpaces := List.length_range _

/-- C13 on an isolate with three heap spaces whose second query fails: the list
under `heap.spaces` holds the regions 0 and 2, in this order. -/
theorem heap_inject_lists_available_spaces_witness :
    (∃ result : Object,
      Heap.inject
        { NumberOfHeapSpaces := 3
          GetHeapSpaceStatistics := fun i =>
            if i = 1 then none else some ⟨"space", i, 1, 2, 3⟩ } 4 Object.empty =
        some result ∧
      Object.get result "heap" = some (Value.obj [("spaces", Value.arr
        [Value.obj [("spaceName", Value.str "space"), ("size", Value.num 0),
           ("usedSize", Value.num 1), ("availableSize", Value.num 2),
           ("physicalSize", Value.num 3)],
         Value.obj [("spaceName", Value.str "space"), ("size", Value.num 2),
           ("usedSize", Value.num 1), ("availableSize", Value.num 2),
           ("physicalSize", Value.num 3)]])])) :=
  (heap_inject_lists_available_spaces
    { NumberOfHeapSpaces := 3
      GetHeapSpaceStatistics := fun i => if i = 1 then none else some ⟨"space", i, 1, 2, 3⟩ }
    4 Object.empty (by norm_num) (by norm_num)).1

/-! ## Event-loop lag collector: later claims -/

/-- C14, as stated, fails for an `enable()` that follows a `disable()`: a collector
constructed at time 100 is enabled, runs one iteration (prepare at 150, check at
200), is disabled and enabled again, and reaches the prepare phase at 300. The check
handle is started, and the previous check time that the next check phase will use
is 200, the time of the check before the `disable()`, not the construction time
100: the check at 400 records 200 units where construction time would give 300. -/
theorem reenable_keeps_last_check_time :
    (EventLoop.run (fun _ _ => 0) 100
      [LoopEvent.enable, LoopEvent.prepare 150 0, LoopEvent.check 200, LoopEvent.disable,
       LoopEvent.enable, LoopEvent.prepare 300 0]).check_handle_ = true ∧
    (EventLoop.run (fun _ _ => 0) 100
      [LoopEvent.enable, LoopEvent.prepare 150 0, LoopEvent.check 200, LoopEvent.disable,
       LoopEvent.enable, LoopEvent.prepare 300 0]).check_time_ = 200 ∧
    (EventLoop.run (fun _ _ => 0) 100
      [LoopEvent.enable, LoopEvent.prepare 150 0, LoopEvent.check 200, LoopEvent.disable,
       LoopEvent.enable, LoopEvent.prepare 300 0]).latency 400 = 200 ∧
    (EventLoop.run (fun _ _ => 0) 100
      [LoopEvent.enable, LoopEvent.prepare 150 0, LoopEvent.check 200, LoopEvent.disable,
       LoopEvent.enable, LoopEvent.prepare 300 0, LoopEvent.check 400]).histogram_.sum = 200 := by
  decide

/-- C14, amended: at a check phase, the previous check time is the timestamp recorded
by the constructor exactly as long as no check phase has occurred since
construction, which covers the first check after the first `enable()`; once a check
phase has fired at time `now`, the previous check time stays `now` through every
later `enable()`, `disable()`, prepare phase and `inject` until the next check
phase. -/
theorem check_time_is_last_check (est : Estimator) (start : Nat) :
    (∀ events : List LoopEvent, (∀ now, LoopEvent.check now ∉ events) →
      (EventLoop.run est start events).check_time_ = start) ∧
    (∀ (events rest : List LoopEvent) (now : Nat),
      (EventLoop.run est start events).check_handle_ = true →
      (∀ later, LoopEvent.check later ∉ rest) →
      (EventLoop.run est start (events ++ LoopEvent.check now :: rest)).check_time_ =
        now) := by
  constructor
  · intro events h
    exact EventLoop.foldl_check_time est events (EventLoop.new start) h
  · intro events rest now hactive h
    unfold EventLoop.run at hactive ⊢
    rw [List.foldl_append, List.foldl_cons, EventLoop.foldl_check_time est rest _ h]
    show (EventLoop.step est (List.foldl (EventLoop.step est) (EventLoop.new start) events)
      (LoopEvent.check now)).check_time_ = now
    simp only [EventLoop.step, hactive, if_true]
    rfl

/-- C14 on a collector constructed at time 100: after `enable()` and the prepare
phase at 150 the previous check time is 100; after the check at 200, a `disable()`,
an `enable()` and the prepare phase at 300 it is 200. -/
theorem check_time_is_last_check_witness :
    (EventLoop.run (fun _ _ => 0) 100
      [LoopEvent.enable, LoopEvent.prepare 150 0]).check_time_ = 100 ∧
    (EventLoop.run (fun _ _ => 0) 100
      ([LoopEvent.enable, LoopEvent.prepare 150 0] ++ LoopEvent.check 200 ::
        [LoopEvent.disable, LoopEvent.enable, LoopEvent.prepare 300 0])).check_time_ = 200 :=
  ⟨(check_time_is_last_check (fun _ _ => 0) 100).1
      [LoopEvent.enable, LoopEvent.prepare 150 0] (by simp),
   (check_time_is_last_check (fun _ _ => 0) 100).2
      [LoopEvent.enable, LoopEvent.prepare 150 0]
      [LoopEvent.disable, LoopEvent.enable, LoopEvent.prepare 300 0] 200 (by decide)
      (by simp)⟩

/-- C17: for every state of the collector with `prev_check <= prepare <= check` (the
stored check and prepare times and the clock value of the check phase) and every
timeout value, the latency computed by the check phase lies between
`prepare - prev_check` and `check - prev_check`, and no step of its computation
wraps around: both subtractions of timestamps and, when an overrun is added, the
subtraction `poll_time - timeout` give the exact integer difference, and the sum
stays below `2 ^ 64`. -/
theorem check_latency_bounds (self : EventLoop) (check : Nat)
    (h1 : self.check_time_ ≤ self.prepare_time_) (h2 : self.prepare_time_ ≤ check)
    (h3 : check < 2 ^ 64) :
    (self.check_cb check).histogram_ = self.histogram_.add (self.latency check) ∧
    self.prepare_time_ - self.check_time_ ≤ self.latency check ∧
    self.latency check ≤ check - self.check_time_ ∧
    ((sub64 check self.prepare_time_ : Nat) : Int) = (check : Int) - self.prepare_time_ ∧
    ((sub64 self.prepare_time_ self.check_time_ : Nat) : Int) =
      (self.prepare_time_ : Int) - self.check_time_ ∧
    (sub64 check self.prepare_time_ > self.scaledTimeout →
      ((sub64 (sub64 check self.prepare_time_) self.scaledTimeout : Nat) : Int) =
        (sub64 check self.prepare_time_ : Int) - self.scaledTimeout ∧
      sub64 self.prepare_time_ self.check_time_ +
        sub64 (sub64 check self.prepare_time_) self.scaledTimeout < 2 ^ 64 ∧
      self.latency check = sub64 self.prepare_time_ self.check_time_ +
        sub64 (sub64 check self.prepare_time_) self.scaledTimeout) ∧
    (¬ sub64 check self.prepare_time_ > self.scaledTimeout →
      self.latency check = sub64 self.prepare_time_ self.check_time_) := by
  have hpoll : sub64 check self.prepare_time_ = check - self.prepare_time_ := by
    unfold sub64
    omega
  have hlat : sub64 self.prepare_time_ self.check_time_ =
      self.prepare_time_ - self.check_time_ := by
    unfold sub64
    omega
  have hT : self.scaledTimeout < 2 ^ 64 := by
    unfold EventLoop.scaledTimeout wrap64
    omega
  have hdef : self.latency check =
      if sub64 check self.prepare_time_ > self.scaledTimeout then
        wrap64 (sub64 self.prepare_time_ self.check_time_ +
          sub64 (sub64 check self.prepare_time_) self.scaledTimeout)
      else sub64 self.prepare_time_ self.check_time_ := rfl
  refine ⟨rfl, ?_, ?_, ?_, ?_, ?_, ?_⟩
  · rw [hdef, hpoll, hlat]
    split
    · rename_i hover
      unfold sub64 wrap64
      omega
    · exact Nat.le_refl _
  · rw [hdef, hpoll, hlat]
    split
    · rename_i hover
      unfold sub64 wrap64
      omega
    · omega
  · rw [hpoll]
    omega
  · rw [hlat]
    omega
  · intro hover
    rw [hdef, if_pos hover, hpoll, hlat]
    rw [hpoll] at hover
    have hs : sub64 (check - self.prepare_time_) self.scaledTimeout =
        check - self.prepare_time_ - self.scaledTimeout := by
      unfold sub64
      omega
    rw [hs]
    refine ⟨by omega, by omega, ?_⟩
    unfold wrap64
    omega
  · intro hover
    rw [hdef, if_neg hover]

/-- C17 on a collector constructed at time 100 after the prepare phase at 150 with a
5 ms timeout: the check at 5000250 computes a latency of 150, between 50 and
5000150. -/
theorem check_latency_bounds_witness :
    ((EventLoop.new 100).prepare_cb 150 5).prepare_time_ -
        ((EventLoop.new 100).prepare_cb 150 5).check_time_ ≤
      ((EventLoop.new 100).prepare_cb 150 5).latency 5000250 ∧
    ((EventLoop.new 100).prepare_cb 150 5).latency 5000250 ≤
      5000250 - ((EventLoop.new 100).prepare_cb 150 5).check_time_ ∧
    ((EventLoop.new 100).prepare_cb 150 5).latency 5000250 = 150 :=
  ⟨(check_latency_bounds ((EventLoop.new 100).prepare_cb 150 5) 5000250
      (by decide) (by decide) (by norm_num)).2.1,
   (check_latency_bounds ((EventLoop.new 100).prepare_cb 150 5) 5000250
      (by decide) (by decide) (by norm_num)).2.2.1,
   by decide⟩

/-- C19: when the loop reports an indefinite block (backend timeout `-1`), the field
`timeout_` holds `2 ^ 64 - 1` and the threshold, scaled by `10 ^ 6` modulo `2 ^ 64`,
is `2 ^ 64 - 10 ^ 6`; hence for every poll time up to `2 ^ 64 - 10 ^ 6` the check
phase adds no overrun and the latency is `prepare - prev_check`. For every
non-negative 32-bit timeout neither multiplication by 1000 leaves the 64-bit range
and the threshold is the timeout times `10 ^ 6`. -/
theorem indefinite_timeout_threshold (self : EventLoop) (prepare : Nat) :
    (self.prepare_cb prepare (-1)).timeout_ = 2 ^ 64 - 1 ∧
    (self.prepare_cb prepare (-1)).scaledTimeout = 2 ^ 64 - 10 ^ 6 ∧
    (∀ check : Nat, sub64 check prepare ≤ 2 ^ 64 - 10 ^ 6 →
      (self.prepare_cb prepare (-1)).latency check = sub64 prepare self.check_time_ ∧
      (self.check_time_ ≤ prepare → prepare < 2 ^ 64 →
        (self.prepare_cb prepare (-1)).latency check = prepare - self.check_time_)) ∧
    (∀ t : Int, 0 ≤ t → t < 2 ^ 32 →
      (self.prepare_cb prepare t).timeout_ = t.toNat ∧
      t.toNat * 1000 < 2 ^ 64 ∧ t.toNat * 1000 * 1000 < 2 ^ 64 ∧
      (self.prepare_cb prepare t).scaledTimeout = t.toNat * 10 ^ 6) := by
  have hm : (self.prepare_cb prepare (-1)).timeout_ = 2 ^ 64 - 1 := by
    show ((-1 : Int) % 2 ^ 64).toNat = 2 ^ 64 - 1
    decide
  have hs : (self.prepare_cb prepare (-1)).scaledTimeout = 2 ^ 64 - 10 ^ 6 := by
    unfold EventLoop.scaledTimeout
    rw [hm]
    decide
  refine ⟨hm, hs, ?_, ?_⟩
  · intro check hpoll
    have hdef : (self.prepare_cb prepare (-1)).latency check =
        if sub64 check prepare > (self.prepare_cb prepare (-1)).scaledTimeout then
          wrap64 (sub64 prepare self.check_time_ +
            sub64 (sub64 check prepare) (self.prepare_cb prepare (-1)).scaledTimeout)
        else sub64 prepare self.check_time_ := rfl
    have hno : ¬ sub64 check prepare > (self.prepare_cb prepare (-1)).scaledTimeout := by
      rw [hs]
      omega
    rw [hdef, if_neg hno]
    refine ⟨rfl, ?_⟩
    intro h1 h2
    unfold sub64
    omega
  · intro t h0 h32
    obtain ⟨n, rfl⟩ := Int.eq_ofNat_of_zero_le h0
    have hn : n < 2 ^ 32 := by omega
    have ht : (self.prepare_cb prepare (n : Int)).timeout_ = n := by
      show (((n : Int)) % 2 ^ 64).toNat = n
      omega
    refine ⟨by rw [ht]; rfl, by simp only [Int.toNat_ofNat]; omega,
      by simp only [Int.toNat_ofNat]; omega, ?_⟩
    unfold EventLoop.scaledTimeout
    rw [ht]
    simp only [Int.toNat_ofNat, wrap64]
    omega

/-- C19 on a collector constructed at time 100. After the prepare phase at 150 with
an indefinite timeout, a check one hour later (3600000000000 ns) records the latency
50 with no overrun; with the timeout of 5 ms the threshold is 5000000. -/
theorem indefinite_timeout_threshold_witness :
    ((EventLoop.new 100).prepare_cb 150 (-1)).latency 3600000000150 = 150 - 100 ∧
    ((EventLoop.new 100).prepare_cb 150 5).scaledTimeout = 5 * 10 ^ 6 :=
  ⟨(((indefinite_timeout_threshold (EventLoop.new 100) 150).2.2.1 3600000000150
      (by decide)).2 (by decide) (by norm_num)),
   ((indefinite_timeout_threshold (EventLoop.new 100) 150).2.2.2 5
      (by decide) (by norm_num)).2.2.2⟩

/-! ## Histogram: later claims -/

/-- C18: for every non-empty sequence of samples (of at most `2 ^ 64` samples, what
the 64-bit counter `count_` can tell apart from an empty histogram) added to a fresh
histogram whose exact total is below `2 ^ 64`, `min() <= avg() <= max()`; and for
the sequence `2 ^ 64 - 1, 1`, whose total reaches `2 ^ 64`, the sum wraps to 0 and
`avg()`, which is 0, falls below `min()`, which is 1. -/
theorem histogram_avg_between_min_max :
    (∀ vs : List Nat, vs ≠ [] → vs.length ≤ 2 ^ 64 → vs.sum < 2 ^ 64 →
      (Histogram.addAll Histogram.new vs).min ≤ (Histogram.addAll Histogram.new vs).avg ∧
      (Histogram.addAll Histogram.new vs).avg ≤ (Histogram.addAll Histogram.new vs).max) ∧
    ((∀ v ∈ [18446744073709551615, 1], v < 2 ^ 64) ∧
      List.sum [18446744073709551615, 1] = 2 ^ 64 ∧
      (Histogram.addAll Histogram.new [18446744073709551615, 1]).sum = 0 ∧
      (Histogram.addAll Histogram.new [18446744073709551615, 1]).avg <
        (Histogram.addAll Histogram.new [18446744073709551615, 1]).min) := by
  refine ⟨Histogram.avg_between, ?_, ?_, ?_, ?_⟩
  · intro v hv
    simp only [List.mem_cons, List.mem_singleton, List.not_mem_nil, or_false] at hv
    rcases hv with rfl | rfl <;> norm_num
  · norm_num
  · decide
  · decide

/-- C18 at `add(10); add(20); add(30)` on a fresh histogram: `min = 10`, `avg = 20`
and `max = 30`. -/
theorem histogram_avg_between_min_max_witness :
    ((Histogram.addAll Histogram.new [10, 20, 30]).min ≤
      (Histogram.addAll Histogram.new [10, 20, 30]).avg ∧
     (Histogram.addAll Histogram.new [10, 20, 30]).avg ≤
      (Histogram.addAll Histogram.new [10, 20, 30]).max) ∧
    (Histogram.addAll Histogram.new [10, 20, 30]).avg = 20 :=
  ⟨histogram_avg_between_min_max.1 [10, 20, 30] (by decide) (by norm_num) (by norm_num),
   by decide⟩

/-! ## GC pause collector: later claims -/

/-- C15: in every reachable state of the GC collector in which no `after` event
carried the wildcard code 15 (reached by fewer than `2 ^ 64` operations, the range
of the 64-bit counters), the aggregate histogram equals the total of the per-type
histograms: its count is the sum of the counts, and its sum the sum of the sums
modulo `2 ^ 64`, of the histograms of every other code. The relation, taken modulo
`2 ^ 64` on both statistics, holds at construction and is preserved by `after` for
a code other than 15 and by `inject`. An event with code 15 breaks it: after
`before(15)`, `after(15)` on a fresh collector the aggregate has count 2 while there
is no other histogram. -/
theorem gc_aggregate_is_total :
    (∀ (est : Estimator) (events : List GCEvent),
      (∀ now, GCEvent.after kGCTypeAll now ∉ events) → events.length < 2 ^ 64 →
      (GarbageCollection.run est events).aggregate.count =
        GarbageCollection.totalOthers Histogram.count
          (GarbageCollection.run est events).pause_ ∧
      (GarbageCollection.run est events).aggregate.sum =
        GarbageCollection.totalOthers Histogram.sum
          (GarbageCollection.run est events).pause_ % 2 ^ 64) ∧
    GarbageCollection.Balanced GarbageCollection.new ∧
    (∀ (self : GarbageCollection) (type now : Nat), self.Balanced →
      type ≠ kGCTypeAll → (self.after type now).Balanced) ∧
    (∀ (est : Estimator) (self : GarbageCollection) (carrier : Object),
      self.Balanced → (self.inject est carrier).1.Balanced) ∧
    ((GarbageCollection.run (fun _ _ => 0)
        [GCEvent.before 15 0, GCEvent.after 15 500]).aggregate.count = 2 ∧
      GarbageCollection.totalOthers Histogram.count
        (GarbageCollection.run (fun _ _ => 0)
          [GCEvent.before 15 0, GCEvent.after 15 500]).pause_ = 0) := by
  refine ⟨?_, GarbageCollection.balanced_new, GarbageCollection.balanced_after,
    GarbageCollection.balanced_inject, by decide⟩
  intro est events h hlen
  obtain ⟨_, hc, hs⟩ := GarbageCollection.run_balanced est events h
  have hle := GarbageCollection.run_total_count_le est events
  refine ⟨?_, hs⟩
  rw [hc]
  exact Nat.mod_eq_of_lt (by omega)

/-- C15 on a run with a scavenge pause of 500, a pause of 300 with code 3 and a
second scavenge pause of 200: the aggregate holds count 3 and sum 1000, the totals
of the two other histograms. -/
theorem gc_aggregate_is_total_witness :
    ((GarbageCollection.run (fun _ _ => 0)
        [GCEvent.before 1 0, GCEvent.after 1 500, GCEvent.before 3 500,
         GCEvent.after 3 800, GCEvent.before 1 800,
         GCEvent.after 1 1000]).aggregate.count =
      GarbageCollection.totalOthers Histogram.count
        (GarbageCollection.run (fun _ _ => 0)
          [GCEvent.before 1 0, GCEvent.after 1 500, GCEvent.before 3 500,
           GCEvent.after 3 800, GCEvent.before 1 800, GCEvent.after 1 1000]).pause_ ∧
     (GarbageCollection.run (fun _ _ => 0)
        [GCEvent.before 1 0, GCEvent.after 1 500, GCEvent.before 3 500,
         GCEvent.after 3 800, GCEvent.before 1 800, GCEvent.after 1 1000]).aggregate.sum =
      GarbageCollection.totalOthers Histogram.sum
        (GarbageCollection.run (fun _ _ => 0)
          [GCEvent.before 1 0, GCEvent.after 1 500, GCEvent.before 3 500,
           GCEvent.after 3 800, GCEvent.before 1 800,
           GCEvent.after 1 1000]).pause_ % 2 ^ 64) ∧
    (GarbageCollection.run (fun _ _ => 0)
        [GCEvent.before 1 0, GCEvent.after 1 500, GCEvent.before 3 500,
         GCEvent.after 3 800, GCEvent.before 1 800,
         GCEvent.after 1 1000]).aggregate.count = 3 ∧
    (GarbageCollection.run (fun _ _ => 0)
        [GCEvent.before 1 0, GCEvent.after 1 500, GCEvent.before 3 500,
         GCEvent.after 3 800, GCEvent.before 1 800,
         GCEvent.after 1 1000]).aggregate.sum = 1000 :=
  ⟨gc_aggregate_is_total.1 (fun _ _ => 0)
      [GCEvent.before 1 0, GCEvent.after 1 500, GCEvent.before 3 500,
       GCEvent.after 3 800, GCEvent.before 1 800, GCEvent.after 1 1000]
      (by intro now h; simp [kGCTypeAll] at h) (by norm_num),
   by decide, by decide⟩

/-- C16: for every reachable state of the GC collector (type codes being values of
the enumeration, which fit the `unsigned char` key of the name table), the record
that `inject` leaves under key `all` of the object stored under `gc` is the record
of the aggregate histogram (code 15), also when code 3, which the name table calls
`all` too, has its own samples: the entries are written in ascending code order and
the write for code 15 replaces the one for code 3. -/
theorem gc_all_key_holds_aggregate (est : Estimator) (events : List GCEvent)
    (carrier : Object)
    (hcodes : ∀ type now, GCEvent.after type now ∈ events → type < 256) :
    ∃ gcObj : Object,
      Object.get ((GarbageCollection.run est events).inject est carrier).2 "gc" =
        some (Value.obj gcObj) ∧
      Object.get gcObj "all" =
        some (Value.obj (Object.ofHistogram est
          (GarbageCollection.run est events).aggregate)) := by
  refine ⟨_, GarbageCollection.inject_gc est _ carrier, ?_⟩
  rw [GarbageCollection.injectLoop_value est _ _ _
    (GarbageCollection.run_typesOk est events)]
  exact GarbageCollection.get_written_all est _ _ _
    (GarbageCollection.run_ordered est events)
    (GarbageCollection.run_find_aggregate est events)
    (GarbageCollection.run_codes_lt est events hcodes)

/-- C16 on a run with a pause of 500 with code 3 and a scavenge pause of 200: the
histogram of code 3 holds one sample, and the record under `gc.all` is the one of
the aggregate, with count 2 and sum 700. -/
theorem gc_all_key_holds_aggregate_witness :
    (∃ gcObj : Object,
      Object.get ((GarbageCollection.run (fun _ _ => 0)
          [GCEvent.before 3 0, GCEvent.after 3 500, GCEvent.before 1 500,
           GCEvent.after 1 700]).inject (fun _ _ => 0) Object.empty).2 "gc" =
        some (Value.obj gcObj) ∧
      Object.get gcObj "all" =
        some (Value.obj (Object.ofHistogram (fun _ _ => 0)
          (GarbageCollection.run (fun _ _ => 0)
            [GCEvent.before 3 0, GCEvent.after 3 500, GCEvent.before 1 500,
             GCEvent.after 1 700]).aggregate))) ∧
    (Map.find (GarbageCollection.run (fun _ _ => 0)
        [GCEvent.before 3 0, GCEvent.after 3 500, GCEvent.before 1 500,
         GCEvent.after 1 700]).pause_ 3).map Histogram.count = some 1 ∧
    ((GarbageCollection.run (fun _ _ => 0)
        [GCEvent.before 3 0, GCEvent.after 3 500, GCEvent.before 1 500,
         GCEvent.after 1 700]).inject (fun _ _ => 0) Object.empty).2.number
      "gc" "all" "count" = some 2 ∧
    ((GarbageCollection.run (fun _ _ => 0)
        [GCEvent.before 3 0, GCEvent.after 3 500, GCEvent.before 1 500,
         GCEvent.after 1 700]).inject (fun _ _ => 0) Object.empty).2.number
      "gc" "all" "sum" = some 700 :=
  ⟨gc_all_key_holds_aggregate (fun _ _ => 0)
      [GCEvent.before 3 0, GCEvent.after 3 500, GCEvent.before 1 500,
       GCEvent.after 1 700] Object.empty
      (by
        intro type now h
        simp only [List.mem_cons, List.mem_singleton, List.not_mem_nil, or_false,
          GCEvent.after.injEq, reduceCtorEq, false_or] at h
        rcases h with ⟨h, _⟩ | ⟨h, _⟩ <;> omega),
   by decide, by decide, by decide⟩

end opentelemetry
